import Mathlib

/-! eau2 DataFrame: a shallow embedding of `src/dataframe.h` and `src/serial.h`.

The DataFrame class of `src/dataframe.h` is embedded as pure functions on a
record of its three data fields; the float serializer of `src/serial.h` as a
loop over the text that `snprintf` renders.  A call that the C++ code ends through
`exit_if_not`, or that runs into undefined behaviour (a null dereference, an
out-of-range index), is an `Outcome.abort` carrying the state the object was in
when the process stopped, so that "nothing was modified" can be stated.

`column.h`, `row.h`, `schema.h`, `vector.h` and `helper.h` are not part of the
sources at hand; `Column`, `Row` and `Schema` are modelled from the
specification (each such definition says so), and `Column::serialize` and
`Column::equals` are parameters of `serialize` and `equals`.

Conventions
* `Vector*` of columns is a `List Column`; a column pointer is the column value
  (two entries of `columns_` never alias the same object).
* `size_t` and `int` counters are `Nat`; row and column counts stay below
  `2^31`, so no loop counter wraps.
* A C `float` is carried as an uninterpreted bit pattern: the DataFrame never
  computes with it.
* `String*` is `Option String`, `none` being the null pointer.
-/

namespace Eau2

/-! ## Faults and outcomes -/

/-- The two ways a call can stop the program. -/
inductive Fault where
  /-- The call `exit_if_not(false, msg)`. -/
  | exit (msg : String)
  /-- Undefined behaviour: null dereference or out-of-range access. -/
  | undefined
  deriving DecidableEq, Repr

/-- Result of an operation on a state of type `σ`: either it returns with the
new state, or the program stops with the state reached so far. -/
inductive Outcome (σ : Type) where
  | ok (s : σ)
  | abort (f : Fault) (s : σ)
  deriving DecidableEq, Repr

/-- State carried by an outcome, whether the call returned or not. -/
def Outcome.state {σ : Type} : Outcome σ → σ
  | .ok s => s
  | .abort _ s => s

/-- True when the call returned normally. -/
def Outcome.isOk {σ : Type} : Outcome σ → Bool
  | .ok _ => true
  | .abort _ _ => false

/-! ## Values, columns, schema (modelled from the specification) -/

/-- A C `float`, carried as its bit pattern; `0` is the pattern of `0.0`. -/
structure CFloat where
  bits : Nat
  deriving DecidableEq, Repr

/-- Modelled from the spec: the native values a column or a row slot holds
(`column.h` and `row.h` are missing).  A text value is a `String*`, `none`
being the null pointer. -/
inductive Value where
  | int (v : Int)
  | bool (v : Bool)
  | float (v : CFloat)
  | string (v : Option String)
  deriving DecidableEq, Repr

/-- Type tag of a value: the tag of the column that can hold it. -/
def Value.tag : Value → Char
  | .int _ => 'I'
  | .bool _ => 'B'
  | .float _ => 'F'
  | .string _ => 'S'

/-- Modelled from the spec: the column variant of `column.h` (missing), "one of
four typed columns (integer, boolean, floating-point, text)". -/
inductive Column where
  | int (xs : List Int)
  | bool (xs : List Bool)
  | float (xs : List CFloat)
  | string (xs : List (Option String))
  deriving DecidableEq, Repr

namespace Column

/-- Modelled from the spec: `Column::get_type`, the type tag. -/
def get_type : Column → Char
  | .int _ => 'I'
  | .bool _ => 'B'
  | .float _ => 'F'
  | .string _ => 'S'

/-- Modelled from the spec: `Column::size`, the current length. -/
def size : Column → Nat
  | .int xs => xs.length
  | .bool xs => xs.length
  | .float xs => xs.length
  | .string xs => xs.length

/-- Modelled from the spec: `Column::as_int`, the checked downcast; `none` is
the null pointer returned on a tag mismatch. -/
def as_int : Column → Option (List Int)
  | .int xs => some xs
  | _ => none

/-- Modelled from the spec: `Column::as_bool`. -/
def as_bool : Column → Option (List Bool)
  | .bool xs => some xs
  | _ => none

/-- Modelled from the spec: `Column::as_float`. -/
def as_float : Column → Option (List CFloat)
  | .float xs => some xs
  | _ => none

/-- Modelled from the spec: `Column::as_string`. -/
def as_string : Column → Option (List (Option String))
  | .string xs => some xs
  | _ => none

/-- Modelled from the spec: `Column::append_missing`, which appends the
placeholder of the column's type: `0`, `false`, `0.0`, or the absent text
marker (a null pointer). -/
def append_missing : Column → Column
  | .int xs => .int (xs ++ [0])
  | .bool xs => .bool (xs ++ [false])
  | .float xs => .float (xs ++ [⟨0⟩])
  | .string xs => .string (xs ++ [none])

/-- Modelled from the spec: the typed `Column::push_back` overloads.  A value
of another type than the column's is a type mismatch. -/
def push_back : Column → Value → Except Fault Column
  | .int xs, .int v => .ok (.int (xs ++ [v]))
  | .bool xs, .bool v => .ok (.bool (xs ++ [v]))
  | .float xs, .float v => .ok (.float (xs ++ [v]))
  | .string xs, .string v => .ok (.string (xs ++ [v]))
  | _, _ => .error (.exit "Column index corresponds to the wrong type.")

/-- The cell at index `i` as a value; `none` when `i` is out of range.  A
reading aid for statements, not a function of the source. -/
def cell : Column → Nat → Option Value
  | .int xs, i => (xs[i]?).map Value.int
  | .bool xs, i => (xs[i]?).map Value.bool
  | .float xs, i => (xs[i]?).map Value.float
  | .string xs, i => (xs[i]?).map Value.string

/-- The missing-value placeholder of a column's type, as a value. -/
def missing : Column → Value
  | .int _ => .int 0
  | .bool _ => .bool false
  | .float _ => .float ⟨0⟩
  | .string _ => .string none

end Column

/-- Modelled from the spec: `Schema` (`schema.h` is missing), the "ordered list
of column type tags". -/
structure Schema where
  types : List Char
  deriving DecidableEq, Repr

namespace Schema

/-- Modelled from the spec: `Schema::width`. -/
def width (s : Schema) : Nat := s.types.length

/-- Modelled from the spec: `Schema::get_types`. -/
def get_types (s : Schema) : List Char := s.types

/-- Modelled from the spec: `Schema::add_column(tag)`, which appends a tag. -/
def add_column (s : Schema) (t : Char) : Schema := ⟨s.types ++ [t]⟩

end Schema

/-! ## Rows and rowers (modelled from the specification) -/

/-- Modelled from the spec: `Row` (`row.h` is missing), "the schema it was
created against, a mutable row index, and one slot per column".  A slot that
was never written is `none`; the row index is `none` until `set_idx` is
called. -/
structure Row where
  types : List Char
  idx : Option Nat
  slots : List (Option Value)
  deriving DecidableEq, Repr

namespace Row

/-- Modelled from the spec: `Row::Row(Schema&)`, a row with one unwritten slot
per schema entry. -/
def ofSchema (schema : Schema) : Row :=
  ⟨schema.get_types, none, List.replicate schema.width none⟩

/-- Modelled from the spec: `Row::get_types`. -/
def get_types (r : Row) : List Char := r.types

/-- Modelled from the spec: `Row::set_idx`. -/
def set_idx (r : Row) (i : Nat) : Row := { r with idx := some i }

/-- Modelled from the spec: the typed `Row::set(col, val)` overloads, "typed by
the caller's value, dispatched against the row's recorded schema tag for that
column"; a column index out of range is undefined. -/
def set (r : Row) (j : Nat) (v : Value) : Outcome Row :=
  match r.types[j]? with
  | none => .abort .undefined r
  | some t =>
    if t = v.tag then .ok { r with slots := r.slots.set j (some v) }
    else .abort (.exit "Row slot has another type.") r

/-- Modelled from the spec: `Row::get_int`; reading a slot of another type is a
type mismatch, reading a slot never written is undefined. -/
def get_int (r : Row) (j : Nat) : Except Fault Int :=
  match r.slots[j]? with
  | some (some (.int v)) => .ok v
  | some (some _) => .error (.exit "Row slot has another type.")
  | _ => .error .undefined

/-- Modelled from the spec: `Row::get_bool`. -/
def get_bool (r : Row) (j : Nat) : Except Fault Bool :=
  match r.slots[j]? with
  | some (some (.bool v)) => .ok v
  | some (some _) => .error (.exit "Row slot has another type.")
  | _ => .error .undefined

/-- Modelled from the spec: `Row::get_float`. -/
def get_float (r : Row) (j : Nat) : Except Fault CFloat :=
  match r.slots[j]? with
  | some (some (.float v)) => .ok v
  | some (some _) => .error (.exit "Row slot has another type.")
  | _ => .error .undefined

/-- Modelled from the spec: `Row::get_string`; the result is the stored
pointer, possibly null. -/
def get_string (r : Row) (j : Nat) : Except Fault (Option String) :=
  match r.slots[j]? with
  | some (some (.string v)) => .ok v
  | some (some _) => .error (.exit "Row slot has another type.")
  | _ => .error .undefined

end Row

/-- Modelled from the spec: `Rower`, a visitor with state of type `ρ`:
`accept(row) -> bool` accumulates and answers (it may also stop the program),
`clone()` forks, `join_delete(other)` folds the other rower's state into this
one.  `accept` only reads the row. -/
structure Rower (ρ : Type) where
  accept : ρ → Row → Except Fault (ρ × Bool)
  clone : ρ → ρ
  join_delete : ρ → ρ → ρ

/-! ## The DataFrame -/

/-- The data fields of `class DataFrame` (the two `Rower*` scratch fields used
by `pmap` are passed to `map_x` explicitly). -/
structure DataFrame where
  columns_ : List Column
  schema_ : Schema
  length_ : Nat
  deriving DecidableEq, Repr

namespace DataFrame

/-- `DataFrame::nrows`. -/
def nrows (df : DataFrame) : Nat := df.length_

/-- `DataFrame::ncols`. -/
def ncols (df : DataFrame) : Nat := df.columns_.length

/-- `DataFrame::get_schema`. -/
def get_schema (df : DataFrame) : Schema := df.schema_

/-- `DataFrame::DataFrame()`: no columns, empty schema, no rows. -/
def empty : DataFrame := ⟨[], ⟨[]⟩, 0⟩

/-- Loop of `DataFrame::DataFrame(Schema&)`: one empty column per tag `I`, `B`,
`F`, `S`; the `switch` has no `default`, so any other tag adds no column. -/
def ofSchemaColumns : List Char → List Column
  | [] => []
  | t :: ts =>
    if t = 'I' then Column.int [] :: ofSchemaColumns ts
    else if t = 'B' then Column.bool [] :: ofSchemaColumns ts
    else if t = 'F' then Column.float [] :: ofSchemaColumns ts
    else if t = 'S' then Column.string [] :: ofSchemaColumns ts
    else ofSchemaColumns ts

/-- `DataFrame::DataFrame(Schema& schema)`. -/
def ofSchema (schema : Schema) : DataFrame :=
  ⟨ofSchemaColumns schema.get_types, schema, 0⟩

/-- One iteration of the `while` loop of `pad_column_`: the `switch` on the
column's tag, every recognised case calling `append_missing`. -/
def pad_step (col : Column) : Except Fault Column :=
  let type := col.get_type
  if type = 'I' then .ok col.append_missing
  else if type = 'B' then .ok col.append_missing
  else if type = 'F' then .ok col.append_missing
  else if type = 'S' then .ok col.append_missing
  else .error (.exit "Invalid column type.")

/-- The loop `while (col->size() < length_)` of `pad_column_`, run for at most
`fuel` iterations. -/
def pad_loop (length_ : Nat) : Nat → Column → Outcome Column
  | 0, col => .ok col
  | fuel + 1, col =>
    if col.size < length_ then
      match pad_step col with
      | .ok col1 => pad_loop length_ fuel col1
      | .error f => .abort f col
    else .ok col

/-- `DataFrame::pad_column_`, for a frame whose row count is `length_`.  Each
iteration lengthens the column by one, so `length_ - col.size` iterations are
all the loop can make (`pad_column_exit` shows the loop condition is false at
the end). -/
def pad_column_ (length_ : Nat) (col : Column) : Outcome Column :=
  pad_loop length_ (length_ - col.size) col

/-- The loop `for (i = 0; i < columns_->size(); i++) pad_column_(columns_[i])`
of `add_column`.  On a fault the columns padded so far stay padded. -/
def pad_all (length_ : Nat) : List Column → Outcome (List Column)
  | [] => .ok []
  | c :: cs =>
    match pad_column_ length_ c with
    | .abort f c1 => .abort f (c1 :: cs)
    | .ok c1 =>
      match pad_all length_ cs with
      | .ok cs1 => .ok (c1 :: cs1)
      | .abort f cs1 => .abort f (c1 :: cs1)

/-- Tail of `add_column`: append the column, then extend the schema when the
column count exceeds its width. -/
def append_column (df : DataFrame) (col : Column) : DataFrame :=
  let columns1 := df.columns_ ++ [col]
  if columns1.length > df.schema_.width then
    ⟨columns1, df.schema_.add_column col.get_type, df.length_⟩
  else
    ⟨columns1, df.schema_, df.length_⟩

/-- `DataFrame::add_column(Column* col)`; `none` is the null pointer. -/
def add_column (df : DataFrame) (col : Option Column) : Outcome DataFrame :=
  match col with
  | none => .abort (.exit "Undefined column provided.") df
  | some col =>
    if col.size < df.length_ then
      match pad_column_ df.length_ col with
      | .ok col1 => .ok (append_column df col1)
      | .abort f _ => .abort f df
    else if col.size > df.length_ then
      match pad_all col.size df.columns_ with
      | .ok cols1 => .ok (append_column ⟨cols1, df.schema_, col.size⟩ col)
      | .abort f cols1 => .abort f ⟨cols1, df.schema_, col.size⟩
    else .ok (append_column df col)

/-- Body of the loop of `fill_row` for column `j`: the `switch` on the column's
tag, reading `col->as_T()->get(idx)` and storing it in slot `j` of the row. -/
def fill_row_step (idx j : Nat) (col : Column) (row : Row) : Outcome Row :=
  let type := col.get_type
  if type = 'I' then
    match col.as_int.bind (fun xs => xs[idx]?) with
    | some v => row.set j (.int v)
    | none => .abort .undefined row
  else if type = 'B' then
    match col.as_bool.bind (fun xs => xs[idx]?) with
    | some v => row.set j (.bool v)
    | none => .abort .undefined row
  else if type = 'F' then
    match col.as_float.bind (fun xs => xs[idx]?) with
    | some v => row.set j (.float v)
    | none => .abort .undefined row
  else if type = 'S' then
    match col.as_string.bind (fun xs => xs[idx]?) with
    | some v => row.set j (.string v)
    | none => .abort .undefined row
  else .abort (.exit "Column has invalid type.") row

/-- The loop `for (j = 0; j < ncols(); j++)` of `fill_row`, from column `j` on;
the list holds the columns `j, j+1, ...`. -/
def fill_row_loop (idx : Nat) : Nat → List Column → Row → Outcome Row
  | _, [], row => .ok row
  | j, c :: cs, row =>
    match fill_row_step idx j c row with
    | .ok row1 => fill_row_loop idx (j + 1) cs row1
    | .abort f row1 => .abort f row1

/-- `DataFrame::fill_row(idx, row)`; the state is the row. -/
def fill_row (df : DataFrame) (idx : Nat) (row : Row) : Outcome Row :=
  if df.schema_.get_types = row.get_types then
    fill_row_loop idx 0 df.columns_ row
  else .abort (.exit "Row's schema does not match the data frame's.") row

/-- Body of the loop of `add_row` for column `j`: the `switch` on the column's
tag, pushing the row's slot `j` (a text value is cloned, which dereferences
the pointer). -/
def add_row_step (row : Row) (j : Nat) (col : Column) : Except Fault Column :=
  let type := col.get_type
  if type = 'I' then
    match row.get_int j with
    | .ok v => col.push_back (.int v)
    | .error f => .error f
  else if type = 'B' then
    match row.get_bool j with
    | .ok v => col.push_back (.bool v)
    | .error f => .error f
  else if type = 'F' then
    match row.get_float j with
    | .ok v => col.push_back (.float v)
    | .error f => .error f
  else if type = 'S' then
    match row.get_string j with
    | .ok (some s) => col.push_back (.string (some s))
    | .ok none => .error .undefined
    | .error f => .error f
  else .error (.exit "Column has invalid type.")

/-- The loop `for (j = 0; j < ncols(); j++)` of `add_row`, from column `j` on.
On a fault the columns already pushed to stay longer by one. -/
def add_row_loop (row : Row) : Nat → List Column → Outcome (List Column)
  | _, [] => .ok []
  | j, c :: cs =>
    match add_row_step row j c with
    | .error f => .abort f (c :: cs)
    | .ok c1 =>
      match add_row_loop row (j + 1) cs with
      | .ok cs1 => .ok (c1 :: cs1)
      | .abort f cs1 => .abort f (c1 :: cs1)

/-- `DataFrame::add_row(row)`. -/
def add_row (df : DataFrame) (row : Row) : Outcome DataFrame :=
  if df.schema_.get_types = row.get_types then
    match add_row_loop row 0 df.columns_ with
    | .ok cols1 => .ok ⟨cols1, df.schema_, df.length_ + 1⟩
    | .abort f cols1 => .abort f ⟨cols1, df.schema_, df.length_⟩
  else .abort (.exit "Row's schema does not match the data frame's.") df

/-- The loop `for (i = start; i < stop; i++) { row.set_idx(i); fill_row(i, row);
r.accept(row); }` shared by `map` and `map_x`, run for at most `fuel`
iterations with one reused row cursor.  The state is the rower's. -/
def scan {ρ : Type} (df : DataFrame) (R : Rower ρ) (stop : Nat) :
    Nat → Nat → Row → ρ → Outcome ρ
  | 0, _, _, s => .ok s
  | fuel + 1, i, row, s =>
    if i < stop then
      match df.fill_row i (row.set_idx i) with
      | .abort f _ => .abort f s
      | .ok row1 =>
        match R.accept s row1 with
        | .error f => .abort f s
        | .ok (s1, _) => scan df R stop fuel (i + 1) row1 s1
    else .ok s

/-- `DataFrame::map(Rower& r)`: the loop runs from `0` to `length_`. -/
def map {ρ : Type} (df : DataFrame) (R : Rower ρ) (r : ρ) : Outcome ρ :=
  scan df R df.length_ (df.length_ - 0) 0 (Row.ofSchema df.schema_) r

/-- `DataFrame::map_x(int x)`, on the two rowers `r_` and `r2_` that `pmap`
stored in the frame: thread 1 runs `r_` over `[0, length_/2)`, any other
thread runs `r2_` over `[length_/2, length_)`. -/
def map_x {ρ : Type} (df : DataFrame) (R : Rower ρ) (x : Int) (r_ r2_ : ρ) :
    Outcome (ρ × ρ) :=
  if x = 1 then
    match scan df R (df.length_ / 2) (df.length_ / 2 - 0) 0
        (Row.ofSchema df.schema_) r_ with
    | .ok s => .ok (s, r2_)
    | .abort f s => .abort f (s, r2_)
  else
    match scan df R df.length_ (df.length_ - df.length_ / 2) (df.length_ / 2)
        (Row.ofSchema df.schema_) r2_ with
    | .ok s => .ok (r_, s)
    | .abort f s => .abort f (r_, s)

/-- `DataFrame::pmap(Rower& r)`: clone, run `map_x(1)` and `map_x(2)`, join,
merge.  The two threads share no mutable state (each has its own rower and row
cursor, the frame is only read), so they are run one after the other. -/
def pmap {ρ : Type} (df : DataFrame) (R : Rower ρ) (r : ρ) : Outcome ρ :=
  let r_ := r
  let r2_ := R.clone r_
  match map_x df R 1 r_ r2_ with
  | .abort f p => .abort f p.1
  | .ok p =>
    match map_x df R 2 p.1 p.2 with
    | .abort f q => .abort f q.1
    | .ok q => .ok (R.join_delete q.1 q.2)

/-- The loop of `filter`: a fresh row per iteration, filled from row `i`, and
added to the new frame when `accept` answers true.  The state is the new
frame and the rower. -/
def filter_loop {ρ : Type} (df : DataFrame) (R : Rower ρ) :
    Nat → Nat → DataFrame → ρ → Outcome (DataFrame × ρ)
  | 0, _, out, s => .ok (out, s)
  | fuel + 1, i, out, s =>
    if i < df.length_ then
      match df.fill_row i (Row.ofSchema df.schema_) with
      | .abort f _ => .abort f (out, s)
      | .ok row1 =>
        match R.accept s row1 with
        | .error f => .abort f (out, s)
        | .ok (s1, b) =>
          if b then
            match out.add_row row1 with
            | .ok out1 => filter_loop df R fuel (i + 1) out1 s1
            | .abort f out1 => .abort f (out1, s1)
          else filter_loop df R fuel (i + 1) out s1
    else .ok (out, s)

/-- `DataFrame::filter(Rower& r)`: the new frame and the rower's final state. -/
def filter {ρ : Type} (df : DataFrame) (R : Rower ρ) (r : ρ) :
    Outcome (DataFrame × ρ) :=
  filter_loop df R (df.length_ - 0) 0 (ofSchema df.schema_) r

end DataFrame

/-! ## Specification-side vocabulary -/

/-- The column followed by `k` missing-value placeholders of its type. -/
def Column.extend : Column → Nat → Column
  | .int xs, k => .int (xs ++ List.replicate k 0)
  | .bool xs, k => .bool (xs ++ List.replicate k false)
  | .float xs, k => .float (xs ++ List.replicate k ⟨0⟩)
  | .string xs, k => .string (xs ++ List.replicate k none)

/-- A type tag is valid when it is one of `I`, `B`, `F`, `S`. -/
def validTag (t : Char) : Prop := t = 'I' ∨ t = 'B' ∨ t = 'F' ∨ t = 'S'

/-- Shape invariant: every column is as long as the row count and the schema
is as wide as the column count. -/
def DataFrame.ShapeInv (df : DataFrame) : Prop :=
  (∀ c ∈ df.columns_, c.size = df.nrows) ∧ df.get_schema.width = df.ncols

/-- Type agreement: the tag of column `i` is the schema's tag `i`. -/
def DataFrame.TypeInv (df : DataFrame) : Prop :=
  ∀ i, i < df.ncols →
    (df.columns_[i]?).map Column.get_type = df.get_schema.get_types[i]?

/-- Working form of the two invariants: the column tags, in order, are the
schema's tags, and every column has `length_` cells. -/
def DataFrame.WF (df : DataFrame) : Prop :=
  df.columns_.map Column.get_type = df.schema_.types ∧
    ∀ c ∈ df.columns_, c.size = df.length_

/-- The frames obtained from one of the two constructors by finitely many
returning calls of `add_column` (non-null column) and `add_row` (row whose
type sequence is the schema's). -/
inductive Reachable : DataFrame → Prop where
  | empty : Reachable DataFrame.empty
  | ofSchema (schema : Schema) (hv : ∀ t ∈ schema.get_types, validTag t) :
      Reachable (DataFrame.ofSchema schema)
  | add_column (df df1 : DataFrame) (col : Column) (h : Reachable df)
      (hc : df.add_column (some col) = .ok df1) : Reachable df1
  | add_row (df df1 : DataFrame) (row : Row) (h : Reachable df)
      (ht : row.get_types = df.get_schema.get_types)
      (hr : df.add_row row = .ok df1) : Reachable df1

namespace DataFrame

/-- `DataFrame::get_int(col, row)`: the column is downcast with `as_int`, a null
result stops the program; indices out of range are undefined. -/
def get_int (df : DataFrame) (col row : Nat) : Except Fault Int :=
  match df.columns_[col]? with
  | none => .error .undefined
  | some c =>
    match c.as_int with
    | none => .error (.exit "Column index corresponds to the wrong type.")
    | some xs =>
      match xs[row]? with
      | none => .error .undefined
      | some v => .ok v

/-- `DataFrame::get_bool(col, row)`. -/
def get_bool (df : DataFrame) (col row : Nat) : Except Fault Bool :=
  match df.columns_[col]? with
  | none => .error .undefined
  | some c =>
    match c.as_bool with
    | none => .error (.exit "Column index corresponds to the wrong type.")
    | some xs =>
      match xs[row]? with
      | none => .error .undefined
      | some v => .ok v

/-- `DataFrame::get_float(col, row)`. -/
def get_float (df : DataFrame) (col row : Nat) : Except Fault CFloat :=
  match df.columns_[col]? with
  | none => .error .undefined
  | some c =>
    match c.as_float with
    | none => .error (.exit "Column index corresponds to the wrong type.")
    | some xs =>
      match xs[row]? with
      | none => .error .undefined
      | some v => .ok v

/-- `DataFrame::get_string(col, row)`; the result is the stored pointer. -/
def get_string (df : DataFrame) (col row : Nat) : Except Fault (Option String) :=
  match df.columns_[col]? with
  | none => .error .undefined
  | some c =>
    match c.as_string with
    | none => .error (.exit "Column index corresponds to the wrong type.")
    | some xs =>
      match xs[row]? with
      | none => .error .undefined
      | some v => .ok v

end DataFrame

/-! ## Sample data -/

/-- The one-column table `[3,1,4,1,5]`. -/
def fiveInts : DataFrame := ⟨[.int [3, 1, 4, 1, 5]], ⟨['I']⟩, 5⟩

/-- A two-row table with an integer and a text column. -/
def twoRows : DataFrame :=
  ⟨[.int [7, 8], .string [some "a", some "b"]], ⟨['I', 'S']⟩, 2⟩

/-- A row of schema `IS` holding `7` and `"a"`. -/
def rowA : Row := ⟨['I', 'S'], none, [some (.int 7), some (.string (some "a"))]⟩

/-- A row of schema `IS` holding `8` and `"b"`. -/
def rowB : Row := ⟨['I', 'S'], none, [some (.int 8), some (.string (some "b"))]⟩

/-- Row `k` of the frame as `map` presents it: the schema's types, row index
`k`, slot `j` holding cell `k` of column `j`. -/
def DataFrame.rowAt (df : DataFrame) (k : Nat) : Row :=
  ⟨df.schema_.types, some k, df.columns_.map (fun c => c.cell k)⟩

/-- The rows `start, start + 1, ..., start + count - 1` in increasing order. -/
def DataFrame.rowsFrom (df : DataFrame) (start count : Nat) : List Row :=
  (List.range' start count).map df.rowAt

/-- Calling `accept` on the given rows, one after the other, with the rower
state threaded through; the answers are dropped. -/
def present {ρ : Type} (R : Rower ρ) : List Row → ρ → Outcome ρ
  | [], s => .ok s
  | r :: rs, s =>
    match R.accept s r with
    | .error f => .abort f s
    | .ok (s1, _) => present R rs s1

/-- A rower that records, in order, every row it is given, and answers
`ans row`.  A clone starts with an empty record; merging appends the clone's
record. -/
def recorder (ans : Row → Bool) : Rower (List Row) where
  accept := fun s r => .ok (s ++ [r], ans r)
  clone := fun _ => []
  join_delete := fun a b => a ++ b

/-- Reduction of an integer to the range of a 32-bit `int` (two's complement
wrap-around). -/
def wrap32 (x : Int) : Int := (x + 2147483648) % 4294967296 - 2147483648

/-- Modelled from the spec: the accumulating Rower of the map/pmap property
("sum of one integer column"): `accept` adds the row's integer at column `c`
to the accumulated sum, a clone carries the same accumulated sum, and
`join_delete` adds the other rower's sum to its own.  Every addition is
followed by `w`: the identity for exact sums, `wrap32` for `int` sums. -/
def sumRower (w : Int → Int) (c : Nat) : Rower Int where
  accept := fun s row =>
    match row.get_int c with
    | .ok v => .ok (w (s + v), true)
    | .error f => .error f
  clone := fun s => s
  join_delete := fun s o => w (s + o)

/-- What the map/pmap equivalence needs of the reduction `w`. -/
def SumCompatible (w : Int → Int) : Prop :=
  w 0 = 0 ∧ (∀ a b, w (w a + b) = w (a + b)) ∧ (∀ a b, w (a + w b) = w (a + b))

/-- The frame built by `add_column` of the integers `[3, 1]` and then of the
one-element text column `["a"]`, which is padded with the absent-text
marker. -/
def paddedText : DataFrame :=
  ⟨[.int [3, 1], .string [some "a", none]], ⟨['I', 'S']⟩, 2⟩

/-- A rower without state that accepts every row. -/
def acceptAll : Rower Unit where
  accept := fun _ _ => .ok ((), true)
  clone := fun _ => ()
  join_delete := fun _ _ => ()

/-- A rower without state that accepts the rows whose integer at column `c` is
odd. -/
def acceptOdd (c : Nat) : Rower Unit where
  accept := fun _ row =>
    match row.get_int c with
    | .ok v => .ok ((), v % 2 = 1)
    | .error f => .error f
  clone := fun _ => ()
  join_delete := fun _ _ => ()

/-- Transport of the carried state of an outcome. -/
def Outcome.map {σ τ : Type} (g : σ → τ) : Outcome σ → Outcome τ
  | .ok s => .ok (g s)
  | .abort f s => .abort f (g s)

/-- The cells of the column at the indices `ks`, in the order of `ks`. -/
def Column.pick : Column → List Nat → Column
  | .int xs, ks => .int (ks.filterMap (fun k => xs[k]?))
  | .bool xs, ks => .bool (ks.filterMap (fun k => xs[k]?))
  | .float xs, ks => .float (ks.filterMap (fun k => xs[k]?))
  | .string xs, ks => .string (ks.filterMap (fun k => xs[k]?))

/-- The frame made of the rows `ks` of `df`, in the order of `ks`, under the
schema of `df`. -/
def DataFrame.pickRows (df : DataFrame) (ks : List Nat) : DataFrame :=
  ⟨df.columns_.map (fun c => c.pick ks), df.schema_, ks.length⟩

/-- Row `k` as `filter` hands it to `accept`: as `rowAt k`, except that `filter`
never calls `set_idx`. -/
def DataFrame.filterRow (df : DataFrame) (k : Nat) : Row :=
  { df.rowAt k with idx := none }

/-- No cell of the frame holds the absent-text marker. -/
def DataFrame.NoMissingText (df : DataFrame) : Prop :=
  ∀ c ∈ df.columns_, ∀ k, c.cell k ≠ some (.string none)

/-- Calling `accept` on the rows `ks` of `df` as `filter` hands them over, in
order; the result is the indices answered with true and the rower's final
state. -/
def select {ρ : Type} (R : Rower ρ) (df : DataFrame) :
    List Nat → ρ → Outcome (List Nat × ρ)
  | [], s => .ok ([], s)
  | k :: ks, s =>
    match R.accept s (df.filterRow k) with
    | .error f => .abort f ([], s)
    | .ok (s1, b) =>
      (select R df ks s1).map (fun p => (if b then k :: p.1 else p.1, p.2))

/-! ## Copy construction, `set`, serialization, equality -/

/-- Modelled from the spec: `Column::set(idx, val)` (`column.h` is missing),
the "indexed set of its native type": the cell at `idx` is overwritten; an
index out of range is undefined and a value of another type is a type
mismatch. -/
def Column.set : Column → Nat → Value → Except Fault Column
  | .int xs, i, .int v => if i < xs.length then .ok (.int (xs.set i v)) else .error .undefined
  | .bool xs, i, .bool v => if i < xs.length then .ok (.bool (xs.set i v)) else .error .undefined
  | .float xs, i, .float v =>
    if i < xs.length then .ok (.float (xs.set i v)) else .error .undefined
  | .string xs, i, .string v =>
    if i < xs.length then .ok (.string (xs.set i v)) else .error .undefined
  | _, _, _ => .error (.exit "Column index corresponds to the wrong type.")

/-- Modelled from the spec: `Column::equals` (`column.h` is missing): two columns
are equal when they have the same type tag, the same length and pairwise equal
values, missing markers being equal to each other. -/
def Column.equals (a b : Column) : Bool := decide (a = b)

/-- Modelled from the spec: `Vector::equals` (`vector.h` is missing), the
"element-wise equality" of two sequences: same size and equal elements at
every index, under the elements' own `equals`. -/
def Vector.equals {α : Type} (eq : α → α → Bool) : List α → List α → Bool
  | [], [] => true
  | a :: as, b :: bs => eq a b && Vector.equals eq as bs
  | _, _ => false

/-- An `Object*` handed to `equals`: a DataFrame, or an object of another class
(the null pointer included). -/
inductive Object where
  | dataframe (df : DataFrame)
  | notDataFrame
  deriving DecidableEq, Repr

/-- The cast `dynamic_cast<DataFrame*>(other)`; `none` is the null result. -/
def Object.as_dataframe : Object → Option DataFrame
  | .dataframe df => some df
  | .notDataFrame => none

namespace DataFrame

/-- `DataFrame::get_columns_`. -/
def get_columns_ (df : DataFrame) : List Column := df.columns_

/-- `DataFrame::DataFrame(DataFrame& df)`: the schema is copied, a new vector
receives all the columns of `df` (`append_all`), and `length_` is set to
`df.nrows()`. -/
def copy (df : DataFrame) : DataFrame :=
  ⟨[] ++ df.get_columns_, df.get_schema, df.nrows⟩

/-- The four overloads `DataFrame::set(col, row, val)`, selected by the type of
`val`: the column is downcast to the type of `val`, a null result stops the
program, otherwise the column's cell is overwritten.  Indices out of range are
undefined. -/
def set (df : DataFrame) (col row : Nat) (val : Value) : Outcome DataFrame :=
  match df.columns_[col]? with
  | none => .abort .undefined df
  | some c =>
    if c.get_type = val.tag then
      match c.set row val with
      | .ok c1 => .ok { df with columns_ := df.columns_.set col c1 }
      | .error f => .abort f df
    else .abort (.exit "Column index corresponds to the wrong type.") df

/-- The loop of `DataFrame::serialize`, at column `i`, on the text built so
far: the column's serialized form is appended, then a comma when
`i < width - 1`.  (`width - 1` is only evaluated with `width ≥ 1`, so the
`size_t` subtraction does not wrap.)  `ser` is `Column::serialize`. -/
def serialize_loop (ser : Column → String) (width : Nat) :
    Nat → List Column → String → String
  | _, [], buff => buff
  | i, c :: cs, buff =>
    let buff1 := buff ++ ser c
    let buff2 := if i < width - 1 then buff1 ++ "," else buff1
    serialize_loop ser width (i + 1) cs buff2

/-- `DataFrame::serialize`, given `Column::serialize` (`column.h` is
missing). -/
def serialize (ser : Column → String) (df : DataFrame) : String :=
  let buff := "" ++ "\x7btype: dataframe, columns: ["
  let buff1 := serialize_loop ser df.ncols 0 df.columns_ buff
  buff1 ++ "]\x7d"

/-- `DataFrame::equals(Object* other)`, given `Column::equals`. -/
def equals (colEq : Column → Column → Bool) (df : DataFrame) (other : Object) : Bool :=
  match other.as_dataframe with
  | none => false
  | some o =>
    if df.ncols ≠ o.ncols then false
    else if df.nrows ≠ o.nrows then false
    else Vector.equals colEq df.columns_ o.get_columns_

end DataFrame

/-! ## The Serializer of `src/serial.h` -/

/-- `Serializer::serialize_int`: `{`, the decimal rendering of the integer
(`StrBuff::c(int)`), `}`. -/
def serialize_int (i : Int) : String := "" ++ "\x7b" ++ toString i ++ "\x7d"

/-- The C library call `snprintf(buf, len, "%.7f", f)` when the rendering of `f`
is `txt`: the buffer receives at most `len - 1` characters of `txt` and the
call returns the full length of `txt`. -/
def snprintf (txt : List Char) (len : Nat) : List Char × Int :=
  (txt.take (len - 1), (txt.length : Int))

/-- The loop `while (bytes >= len)` of `serialize_float`, run for at most `fuel`
iterations; `none` when the iterations run out before the loop ends.  The
result is the final buffer size and buffer. -/
def serialize_float_loop (txt : List Char) :
    Nat → Nat → List Char → Int → Option (Except Fault (Nat × List Char))
  | 0, len, c_float, bytes =>
    if bytes ≥ (len : Int) then none else some (.ok (len, c_float))
  | fuel + 1, len, c_float, bytes =>
    if bytes ≥ (len : Int) then
      let len1 := len + 10
      let r := snprintf txt len1
      if r.2 ≥ 0 then serialize_float_loop txt fuel len1 r.1 r.2
      else some (.error (.exit "snprintf failed"))
    else some (.ok (len, c_float))

/-- `Serializer::serialize_float(f)`, where `render f` is the text `"%.7f"`
gives for `f`. -/
def serialize_float (render : CFloat → List Char) (fuel : Nat) (f : CFloat) :
    Option (Except Fault String) :=
  let buff := "" ++ "\x7b"
  let len := 10
  let r := snprintf (render f) len
  if r.2 ≥ 0 then
    match serialize_float_loop (render f) fuel len r.1 r.2 with
    | none => none
    | some (.error e) => some (.error e)
    | some (.ok (_, c_float)) => some (.ok (buff ++ String.mk c_float ++ "\x7d"))
  else some (.error (.exit "snprintf failed"))

/-- Modelled from the spec: `Column::serialize` for an integer column, "a
sequence-wrapped rendering of its serialized scalar values"
(`column ::= "[" scalar ("," scalar)* "]"`); the other column types are
rendered by the given function. -/
def Column.serialize (others : Column → String) : Column → String
  | .int xs => "[" ++ String.intercalate "," (xs.map serialize_int) ++ "]"
  | c => others c

/-! ## Frames built by `add_row` -/

/-- The frames obtained from the schema constructor (valid tags) by finitely
many returning calls of `add_row`. -/
inductive BuiltByRows : DataFrame → Prop where
  | ofSchema (schema : Schema) (hv : ∀ t ∈ schema.get_types, validTag t) :
      BuiltByRows (DataFrame.ofSchema schema)
  | add_row (df df1 : DataFrame) (row : Row) (h : BuiltByRows df)
      (hr : df.add_row row = .ok df1) : BuiltByRows df1

/-- A rower whose `accept` answers `b` on every row, whatever its state. -/
def Rower.Always {ρ : Type} (R : Rower ρ) (b : Bool) : Prop :=
  ∀ s r, ∃ s1, R.accept s r = .ok (s1, b)

/-- A rower without state that rejects every row. -/
def rejectAll : Rower Unit where
  accept := fun _ _ => .ok ((), false)
  clone := fun _ => ()
  join_delete := fun _ _ => ()

/-- The column with the value appended, when the value has the column's type
(the column itself otherwise). -/
def Column.push : Column → Value → Column
  | .int xs, .int v => .int (xs ++ [v])
  | .bool xs, .bool v => .bool (xs ++ [v])
  | .float xs, .float v => .float (xs ++ [v])
  | .string xs, .string v => .string (xs ++ [v])
  | c, _ => c
/-- A row of schema `IS` holding `9` and `"c"`. -/
def rowC : Row := ⟨['I', 'S'], none, [some (.int 9), some (.string (some "c"))]⟩

/-! # Theorems -/

open DataFrame

/-! ## Columns and padding -/

theorem Column.size_append_missing (c : Column) :
    c.append_missing.size = c.size + 1 := by
  cases c <;> simp [Column.append_missing, Column.size]

theorem Column.extend_zero (c : Column) : c.extend 0 = c := by
  cases c <;> simp [Column.extend]

theorem Column.append_missing_extend (c : Column) (k : Nat) :
    c.append_missing.extend k = c.extend (k + 1) := by
  cases c <;> simp [Column.append_missing, Column.extend, List.replicate_succ]

theorem Column.size_extend (c : Column) (k : Nat) :
    (c.extend k).size = c.size + k := by
  cases c <;> simp [Column.extend, Column.size]

theorem Column.get_type_extend (c : Column) (k : Nat) :
    (c.extend k).get_type = c.get_type := by
  cases c <;> rfl

theorem Column.cell_extend_lt (c : Column) (k i : Nat) (h : i < c.size) :
    (c.extend k).cell i = c.cell i := by
  cases c <;> simp only [Column.size] at h <;>
    simp [Column.extend, Column.cell, List.getElem?_append_left, h]

theorem Column.cell_extend_ge (c : Column) (k i : Nat) (h1 : c.size ≤ i)
    (h2 : i < c.size + k) : (c.extend k).cell i = some c.missing := by
  cases c <;> simp only [Column.size] at h1 h2 <;>
    simp [Column.extend, Column.cell, Column.missing, List.getElem?_append_right, h1,
      List.getElem?_replicate] <;> omega

theorem Column.cell_eq_none (c : Column) (i : Nat) (h : c.size ≤ i) :
    c.cell i = none := by
  cases c <;> simp only [Column.size] at h <;> simp [Column.cell, h]

theorem Column.cell_isSome (c : Column) (i : Nat) (h : i < c.size) :
    ∃ v, c.cell i = some v ∧ v.tag = c.get_type := by
  cases c <;> simp only [Column.size] at h <;>
    simp [Column.cell, h, Value.tag, Column.get_type]

theorem pad_step_eq (c : Column) : pad_step c = .ok c.append_missing := by
  cases c <;> rfl

theorem pad_loop_eq (n : Nat) : ∀ (fuel : Nat) (c : Column), n - c.size ≤ fuel →
    pad_loop n fuel c = .ok (c.extend (n - c.size)) := by
  intro fuel
  induction fuel with
  | zero =>
    intro c h
    have h0 : n - c.size = 0 := by omega
    simp [pad_loop, h0, Column.extend_zero]
  | succ k ih =>
    intro c h
    by_cases hlt : c.size < n
    · have hk : n - c.append_missing.size ≤ k := by
        rw [Column.size_append_missing]; omega
      have hs : n - c.size = (n - c.append_missing.size) + 1 := by
        rw [Column.size_append_missing]; omega
      simp only [pad_loop, hlt, if_true, pad_step_eq]
      rw [ih _ hk, Column.append_missing_extend, ← hs]
    · have h0 : n - c.size = 0 := by omega
      simp [pad_loop, hlt, h0, Column.extend_zero]

theorem pad_column_eq (n : Nat) (c : Column) :
    pad_column_ n c = .ok (c.extend (n - c.size)) :=
  pad_loop_eq n _ c (Nat.le_refl _)

/-- The loop of `pad_column_` stops because its condition is false, not because
the iteration budget of the model ran out. -/
theorem pad_column_exit (n : Nat) (c : Column) :
    ∃ c1, pad_column_ n c = .ok c1 ∧ ¬ c1.size < n := by
  refine ⟨_, pad_column_eq n c, ?_⟩
  rw [Column.size_extend]; omega

theorem pad_all_eq (n : Nat) (cs : List Column) :
    pad_all n cs = .ok (cs.map (fun c => c.extend (n - c.size))) := by
  induction cs with
  | nil => rfl
  | cons c cs ih => simp [pad_all, pad_column_eq, ih]

theorem add_column_eq (df : DataFrame) (col : Column) :
    df.add_column (some col) = .ok
      (if col.size < df.length_ then
        append_column df (col.extend (df.length_ - col.size))
      else if col.size > df.length_ then
        append_column ⟨df.columns_.map (fun c => c.extend (col.size - c.size)),
          df.schema_, col.size⟩ col
      else append_column df col) := by
  unfold add_column
  by_cases h1 : col.size < df.length_
  · simp [h1, pad_column_eq]
  · by_cases h2 : col.size > df.length_
    · simp [h1, h2, pad_all_eq]
    · simp [h1, h2]


/-! ## The working invariant -/

theorem DataFrame.WF.shape {df : DataFrame} (h : df.WF) : df.ShapeInv := by
  refine ⟨h.2, ?_⟩
  have := congrArg List.length h.1
  simpa [get_schema, Schema.width, ncols] using this.symm

theorem DataFrame.WF.types {df : DataFrame} (h : df.WF) : df.TypeInv := by
  intro i _
  simp only [get_schema, Schema.get_types, ← h.1, List.getElem?_map]

theorem DataFrame.WF.width {df : DataFrame} (h : df.WF) :
    df.schema_.types.length = df.columns_.length := by
  rw [← h.1, List.length_map]

theorem DataFrame.WF.of_inv {df : DataFrame} (hs : df.ShapeInv) (ht : df.TypeInv) : df.WF := by
  refine ⟨?_, hs.2 |> fun _ => hs.1⟩
  apply List.ext_getElem?
  intro i
  by_cases hi : i < df.columns_.length
  · simpa [get_schema, Schema.get_types] using ht i hi
  · have hw : df.schema_.types.length = df.columns_.length := hs.2
    have h1 : df.columns_.length ≤ i := by omega
    rw [List.getElem?_eq_none (by simpa using h1), List.getElem?_eq_none (by omega)]

theorem wf_empty : DataFrame.empty.WF := by
  simp [DataFrame.WF, DataFrame.empty]

theorem ofSchemaColumns_types (ts : List Char) (hv : ∀ t ∈ ts, validTag t) :
    (ofSchemaColumns ts).map Column.get_type = ts ∧
      ∀ c ∈ ofSchemaColumns ts, c.size = 0 := by
  induction ts with
  | nil => simp [ofSchemaColumns]
  | cons t ts ih =>
    have ih1 := ih (fun u hu => hv u (List.mem_cons_of_mem _ hu))
    rcases hv t (List.mem_cons_self _ _) with h | h | h | h <;> subst h <;>
      simp [ofSchemaColumns, Column.get_type, Column.size, ih1.1] <;>
      exact ih1.2

theorem wf_ofSchema (schema : Schema) (hv : ∀ t ∈ schema.get_types, validTag t) :
    (DataFrame.ofSchema schema).WF := by
  have := ofSchemaColumns_types schema.get_types hv
  exact ⟨this.1, this.2⟩

theorem wf_append_column (df : DataFrame) (col : Column) (h : df.WF)
    (hc : col.size = df.length_) : (append_column df col).WF := by
  have hw := h.width
  unfold append_column
  simp only [List.length_append, List.length_singleton, Schema.width, hw,
    gt_iff_lt, Nat.lt_add_one, if_true]
  refine ⟨by simp [Schema.add_column, h.1], ?_⟩
  intro c hmem
  rcases List.mem_append.1 hmem with h1 | h1
  · exact h.2 c h1
  · simp at h1; subst h1; exact hc

theorem wf_add_column (df df1 : DataFrame) (col : Column) (h : df.WF)
    (hc : df.add_column (some col) = .ok df1) : df1.WF := by
  rw [add_column_eq] at hc
  injection hc with hc
  subst hc
  by_cases h1 : col.size < df.length_
  · simp only [h1, if_true]
    apply wf_append_column _ _ h
    rw [Column.size_extend]; omega
  · by_cases h2 : col.size > df.length_
    · simp only [h1, h2, if_true, if_false]
      apply wf_append_column
      · refine ⟨?_, ?_⟩
        · simp only [List.map_map]
          rw [← h.1]
          apply List.map_congr_left
          intro c _
          simp [Column.get_type_extend]
        · intro c hmem
          simp only [List.mem_map] at hmem
          obtain ⟨c0, hc0, rfl⟩ := hmem
          rw [Column.size_extend, h.2 c0 hc0]
          show _ = col.size
          omega
      · rfl
    · simp only [h1, h2, if_false]
      apply wf_append_column _ _ h
      omega

theorem add_row_step_ok {row : Row} {j : Nat} {c c1 : Column}
    (h : add_row_step row j c = .ok c1) :
    c1.get_type = c.get_type ∧ c1.size = c.size + 1 := by
  cases c <;> simp only [add_row_step, Column.get_type] at h <;>
    simp only [Char.reduceEq, if_true, if_false] at h <;>
    split at h <;> simp [Column.push_back] at h <;>
    subst h <;> simp [Column.get_type, Column.size]

theorem add_row_loop_ok {row : Row} : ∀ {cs cs1 : List Column} {j : Nat},
    add_row_loop row j cs = .ok cs1 →
    cs1.map Column.get_type = cs.map Column.get_type ∧
      ∀ n, (∀ c ∈ cs, c.size = n) → ∀ c ∈ cs1, c.size = n + 1 := by
  intro cs
  induction cs with
  | nil =>
    intro cs1 j h
    simp [add_row_loop] at h
    subst h
    simp
  | cons c cs ih =>
    intro cs1 j h
    simp only [add_row_loop] at h
    split at h
    · simp at h
    · rename_i c1 hstep
      split at h
      · rename_i cs2 hrest
        injection h with h
        subst h
        have h1 := add_row_step_ok hstep
        have h2 := ih hrest
        refine ⟨by simp [h1.1, h2.1], ?_⟩
        intro n hn d hd
        rcases List.mem_cons.1 hd with hd | hd
        · subst hd
          rw [h1.2, hn c (List.mem_cons_self _ _)]
        · exact h2.2 n (fun e he => hn e (List.mem_cons_of_mem _ he)) d hd
      · simp at h

theorem wf_add_row (df df1 : DataFrame) (row : Row) (h : df.WF)
    (hr : df.add_row row = .ok df1) : df1.WF := by
  unfold add_row at hr
  split at hr
  · split at hr
    · rename_i cols1 hl
      injection hr with hr
      subst hr
      have := add_row_loop_ok hl
      exact ⟨by rw [this.1]; exact h.1, this.2 _ h.2⟩
    · simp at hr
  · simp at hr

theorem wf_of_reachable {df : DataFrame} (h : Reachable df) : df.WF := by
  induction h with
  | empty => exact wf_empty
  | ofSchema schema hv => exact wf_ofSchema schema hv
  | add_column df df1 col _ hc ih => exact wf_add_column df df1 col ih hc
  | add_row df df1 row _ _ hr ih => exact wf_add_row df df1 row ih hr

/-! ## C1, C2: the invariants -/

theorem reachable_twoRows : Reachable twoRows :=
  Reachable.add_row _ _ rowB
    (Reachable.add_row _ _ rowA
      (Reachable.ofSchema ⟨['I', 'S']⟩ (by simp [Schema.get_types, validTag])) rfl rfl)
    rfl rfl

/-- C1: every DataFrame obtained from the empty constructor or from the schema
constructor (valid tags) by returning calls of `add_column` (non-null column)
and `add_row` (row of the schema's type sequence) has all its columns as long
as `nrows()` and a schema as wide as `ncols()`. -/
theorem shape_invariant (df : DataFrame) (h : Reachable df) :
    (∀ c ∈ df.columns_, c.size = df.nrows) ∧ df.get_schema.width = df.ncols :=
  (wf_of_reachable h).shape

theorem shape_invariant_witness :
    Reachable ⟨[.int [7, 8, 0], .string [some "a", some "b", none],
        .bool [true, false, true]], ⟨['I', 'S', 'B']⟩, 3⟩ ∧
    ((∀ c ∈ [Column.int [7, 8, 0], .string [some "a", some "b", none],
        .bool [true, false, true]], c.size = 3) ∧
      (Schema.mk ['I', 'S', 'B']).width = 3) :=
  have hr : Reachable ⟨[.int [7, 8, 0], .string [some "a", some "b", none],
      .bool [true, false, true]], ⟨['I', 'S', 'B']⟩, 3⟩ :=
    Reachable.add_column twoRows _ (.bool [true, false, true]) reachable_twoRows rfl
  ⟨hr, shape_invariant _ hr⟩

theorem append_column_columns (df : DataFrame) (col : Column) :
    (append_column df col).columns_ = df.columns_ ++ [col] ∧
      (append_column df col).length_ = df.length_ := by
  simp only [append_column]
  split <;> simp

theorem append_column_schema (df : DataFrame) (col : Column) :
    (df.columns_.length + 1 > df.schema_.width →
        (append_column df col).schema_.types = df.schema_.types ++ [col.get_type]) ∧
      (¬ df.columns_.length + 1 > df.schema_.width →
        (append_column df col).schema_ = df.schema_) := by
  simp only [append_column, List.length_append, List.length_singleton]
  constructor <;> intro h <;> simp [h, Schema.add_column]

/-- C2: in every DataFrame obtained from a constructor by `add_column` and
`add_row` calls, column `i` carries the schema's tag `i`, for every
`i < ncols()`; and on any DataFrame `add_column` returns with the (possibly
padded) column as the last column, the earlier columns keeping their places
and tags, and the schema gains exactly one entry, the column's tag, when the
new column count exceeds the schema width, and is unchanged otherwise. -/
theorem type_agreement (df : DataFrame) (col : Column) :
    (Reachable df → ∀ i, i < df.ncols →
      (df.columns_[i]?).map Column.get_type = df.get_schema.get_types[i]?) ∧
    ∃ df1 cols1 col1, df.add_column (some col) = .ok df1 ∧
      df1.columns_ = cols1 ++ [col1] ∧
      cols1.map Column.get_type = df.columns_.map Column.get_type ∧
      col1.get_type = col.get_type ∧
      (∀ i, i < col.size → col1.cell i = col.cell i) ∧
      (df.ncols + 1 > df.get_schema.width →
        df1.get_schema.get_types = df.get_schema.get_types ++ [col.get_type]) ∧
      (¬ df.ncols + 1 > df.get_schema.width → df1.get_schema = df.get_schema) := by
  refine ⟨fun h => (wf_of_reachable h).types, ?_⟩
  by_cases h1 : col.size < df.length_
  · refine ⟨_, df.columns_, col.extend (df.length_ - col.size), ?_,
      (append_column_columns _ _).1, rfl, Column.get_type_extend _ _,
      fun i hi => Column.cell_extend_lt _ _ _ hi, ?_, ?_⟩
    · rw [add_column_eq]; simp only [h1, if_true]
    · intro h
      rw [← Column.get_type_extend col (df.length_ - col.size)]
      exact (append_column_schema _ _).1 h
    · exact (append_column_schema _ _).2
  · by_cases h2 : col.size > df.length_
    · refine ⟨_, df.columns_.map (fun c => c.extend (col.size - c.size)), col, ?_,
        (append_column_columns ⟨_, df.schema_, col.size⟩ col).1, ?_, rfl,
        fun _ _ => rfl, ?_, ?_⟩
      · rw [add_column_eq]; simp only [h1, h2, if_true, if_false]
      · simp only [List.map_map]
        apply List.map_congr_left
        intro c _
        simp [Column.get_type_extend]
      · intro h
        exact (append_column_schema ⟨_, df.schema_, col.size⟩ col).1
          (by simpa [ncols, get_schema] using h)
      · intro h
        exact (append_column_schema ⟨_, df.schema_, col.size⟩ col).2
          (by simpa [ncols, get_schema] using h)
    · refine ⟨_, df.columns_, col, ?_, (append_column_columns _ _).1, rfl, rfl,
        fun _ _ => rfl, (append_column_schema _ _).1, (append_column_schema _ _).2⟩
      rw [add_column_eq]; simp only [h1, h2, if_false]

theorem type_agreement_witness :
    Reachable twoRows ∧
    (∀ i, i < twoRows.ncols →
      (twoRows.columns_[i]?).map Column.get_type = twoRows.get_schema.get_types[i]?) ∧
    twoRows.add_column (some (.bool [true])) =
      .ok ⟨[.int [7, 8], .string [some "a", some "b"], .bool [true, false]],
        ⟨['I', 'S', 'B']⟩, 2⟩ :=
  ⟨reachable_twoRows, (type_agreement twoRows (.bool [true])).1 reachable_twoRows, rfl⟩

/-! ## C3, C4: padding in `add_column` -/

/-- C3: on a DataFrame with `nrows() = n`, `add_column` of a non-null column
of length `m < n` returns; the added column is last, has length `n`, holds its
own values at indices below `m` and the missing-value placeholder of its type
at indices `m .. n-1`; `nrows()` is still `n` and the columns present before
are unchanged. -/
theorem add_column_shorter (df : DataFrame) (col : Column)
    (h : col.size < df.nrows) :
    ∃ df1 col1, df.add_column (some col) = .ok df1 ∧
      df1.columns_ = df.columns_ ++ [col1] ∧
      col1.get_type = col.get_type ∧
      col1.size = df.nrows ∧
      (∀ i, i < col.size → col1.cell i = col.cell i) ∧
      (∀ i, col.size ≤ i → i < df.nrows → col1.cell i = some col.missing) ∧
      df1.nrows = df.nrows := by
  have h1 : col.size < df.length_ := h
  refine ⟨_, col.extend (df.length_ - col.size), ?_, (append_column_columns _ _).1,
    Column.get_type_extend _ _, ?_, fun i hi => Column.cell_extend_lt _ _ _ hi, ?_,
    (append_column_columns _ _).2⟩
  · rw [add_column_eq]; simp only [h1, if_true]
  · rw [Column.size_extend]; show _ = df.length_; omega
  · intro i hi1 hi2
    apply Column.cell_extend_ge _ _ _ hi1
    have : i < df.length_ := hi2
    omega

theorem add_column_shorter_witness :
    (Column.bool [true, true]).size < fiveInts.nrows ∧
    (∃ df1 col1, fiveInts.add_column (some (.bool [true, true])) = .ok df1 ∧
      df1.columns_ = fiveInts.columns_ ++ [col1] ∧
      col1.get_type = (Column.bool [true, true]).get_type ∧
      col1.size = fiveInts.nrows ∧
      (∀ i, i < (Column.bool [true, true]).size →
        col1.cell i = (Column.bool [true, true]).cell i) ∧
      (∀ i, (Column.bool [true, true]).size ≤ i → i < fiveInts.nrows →
        col1.cell i = some (Column.bool [true, true]).missing) ∧
      df1.nrows = fiveInts.nrows) ∧
    (fiveInts.add_column (some (.bool [true, true]))).state.get_bool 1 0 = .ok true ∧
    (fiveInts.add_column (some (.bool [true, true]))).state.get_bool 1 1 = .ok true ∧
    (fiveInts.add_column (some (.bool [true, true]))).state.get_bool 1 2 = .ok false ∧
    (fiveInts.add_column (some (.bool [true, true]))).state.get_bool 1 3 = .ok false ∧
    (fiveInts.add_column (some (.bool [true, true]))).state.get_bool 1 4 = .ok false :=
  ⟨by decide, add_column_shorter fiveInts (.bool [true, true]) (by decide),
    rfl, rfl, rfl, rfl, rfl⟩

/-- C4: on a DataFrame with `nrows() = n` whose columns all have length `n`,
`add_column` of a non-null column of length `m > n` returns with
`nrows() = m`; every column present before keeps its place, tag and values at
indices below `n`, has length `m`, and holds its type's missing-value
placeholder at indices `n .. m-1`; the added column is last and is exactly the
given column. -/
theorem add_column_longer (df : DataFrame) (col : Column)
    (hlen : ∀ c ∈ df.columns_, c.size = df.nrows) (h : df.nrows < col.size) :
    ∃ df1 cols1, df.add_column (some col) = .ok df1 ∧
      df1.nrows = col.size ∧
      df1.columns_ = cols1 ++ [col] ∧
      cols1.length = df.ncols ∧
      ∀ (j : Nat) (c : Column), df.columns_[j]? = some c →
        ∃ c1, cols1[j]? = some c1 ∧ c1.get_type = c.get_type ∧
          c1.size = col.size ∧
          (∀ i, i < df.nrows → c1.cell i = c.cell i) ∧
          (∀ i, df.nrows ≤ i → i < col.size → c1.cell i = some c.missing) := by
  have h1 : ¬ col.size < df.length_ := by
    have : df.length_ < col.size := h
    omega
  have h2 : col.size > df.length_ := h
  refine ⟨_, df.columns_.map (fun c => c.extend (col.size - c.size)), ?_,
    (append_column_columns ⟨_, df.schema_, col.size⟩ col).2,
    (append_column_columns ⟨_, df.schema_, col.size⟩ col).1, by simp [ncols], ?_⟩
  · rw [add_column_eq]; simp only [h1, h2, if_true, if_false]
  · intro j c hj
    have hc : c.size = df.length_ := hlen c (List.getElem?_mem hj)
    refine ⟨c.extend (col.size - c.size), by simp [hj], Column.get_type_extend _ _, ?_,
      ?_, ?_⟩
    · rw [Column.size_extend]; omega
    · intro i hi
      apply Column.cell_extend_lt
      have : i < df.length_ := hi
      omega
    · intro i hi1 hi2
      have : df.length_ ≤ i := hi1
      apply Column.cell_extend_ge <;> omega

theorem add_column_longer_witness :
    ((∀ c ∈ DataFrame.empty.columns_, c.size = DataFrame.empty.nrows) ∧
      DataFrame.empty.nrows < (Column.int [3, 1, 4, 1, 5]).size) ∧
    (∃ df1 cols1, DataFrame.empty.add_column (some (.int [3, 1, 4, 1, 5])) = .ok df1 ∧
      df1.nrows = (Column.int [3, 1, 4, 1, 5]).size ∧
      df1.columns_ = cols1 ++ [.int [3, 1, 4, 1, 5]] ∧
      cols1.length = DataFrame.empty.ncols ∧
      ∀ (j : Nat) (c : Column), DataFrame.empty.columns_[j]? = some c →
        ∃ c1, cols1[j]? = some c1 ∧ c1.get_type = c.get_type ∧
          c1.size = (Column.int [3, 1, 4, 1, 5]).size ∧
          (∀ i, i < DataFrame.empty.nrows → c1.cell i = c.cell i) ∧
          (∀ i, DataFrame.empty.nrows ≤ i → i < (Column.int [3, 1, 4, 1, 5]).size →
            c1.cell i = some c.missing)) ∧
    DataFrame.empty.add_column (some (.int [3, 1, 4, 1, 5])) = .ok fiveInts ∧
    fiveInts.nrows = 5 ∧
    [fiveInts.get_int 0 0, fiveInts.get_int 0 1, fiveInts.get_int 0 2,
      fiveInts.get_int 0 3, fiveInts.get_int 0 4] = [.ok 3, .ok 1, .ok 4, .ok 1, .ok 5] ∧
    twoRows.add_column (some (.bool [true, false, true])) =
      .ok ⟨[.int [7, 8, 0], .string [some "a", some "b", none],
        .bool [true, false, true]], ⟨['I', 'S', 'B']⟩, 3⟩ :=
  ⟨⟨by simp [DataFrame.empty], by decide⟩,
    add_column_longer DataFrame.empty (.int [3, 1, 4, 1, 5])
      (by simp [DataFrame.empty]) (by decide),
    rfl, rfl, rfl, rfl⟩

/-! ## C5, C6: rejected calls -/

/-- C5: `add_column` with a null column stops with an error, and the column
collection, the schema and the row count are those from before the call. -/
theorem add_column_null (df : DataFrame) :
    df.add_column none = .abort (.exit "Undefined column provided.") df ∧
    (df.add_column none).isOk = false ∧
    (df.add_column none).state.columns_ = df.columns_ ∧
    (df.add_column none).state.get_schema = df.get_schema ∧
    (df.add_column none).state.nrows = df.nrows :=
  ⟨rfl, rfl, rfl, rfl, rfl⟩

/-- C6: when the row's type sequence differs from the schema's, `fill_row`
stops with an error and the row is as it was (no slot written), and `add_row`
stops with an error and the DataFrame is as it was (no column changed, same
row count). -/
theorem schema_mismatch_rejected (df : DataFrame) (idx : Nat) (row : Row)
    (h : row.get_types ≠ df.get_schema.get_types) :
    df.fill_row idx row =
      .abort (.exit "Row's schema does not match the data frame's.") row ∧
    df.add_row row =
      .abort (.exit "Row's schema does not match the data frame's.") df := by
  have h1 : ¬ df.schema_.get_types = row.get_types := fun e => h e.symm
  simp [fill_row, add_row, h1]

theorem schema_mismatch_rejected_witness :
    rowA.get_types ≠ fiveInts.get_schema.get_types ∧
    (fiveInts.fill_row 0 rowA =
      .abort (.exit "Row's schema does not match the data frame's.") rowA ∧
    fiveInts.add_row rowA =
      .abort (.exit "Row's schema does not match the data frame's.") fiveInts) :=
  ⟨by decide, schema_mismatch_rejected fiveInts 0 rowA (by decide)⟩

/-! ## `fill_row` on a well-formed frame -/

theorem set_length_append {α : Type} (pre : List α) (p y : α) (post : List α) :
    (pre ++ p :: post).set pre.length y = pre ++ y :: post := by
  induction pre with
  | nil => rfl
  | cons a pre ih => simp [ih]

theorem getElem?_length_append {α : Type} (pre : List α) (p : α) (post : List α) :
    (pre ++ p :: post)[pre.length]? = some p := by
  induction pre with
  | nil => simp
  | cons a pre ih => simpa using ih

theorem fill_row_step_eq (idx : Nat) (c : Column) (row : Row) (v : Value)
    (tpre trest : List Char) (pre post : List (Option Value)) (p : Option Value)
    (hc : c.cell idx = some v)
    (ht : row.types = tpre ++ c.get_type :: trest)
    (hs : row.slots = pre ++ p :: post) (hl : tpre.length = pre.length) :
    fill_row_step idx pre.length c row =
      .ok { row with slots := pre ++ some v :: post } := by
  have hty : row.types[pre.length]? = some c.get_type := by
    rw [ht, ← hl]; exact getElem?_length_append _ _ _
  have hset : row.slots.set pre.length (some v) = pre ++ some v :: post := by
    rw [hs]; exact set_length_append _ _ _ _
  cases c <;> simp only [Column.cell, Option.map_eq_some'] at hc <;>
    obtain ⟨a, ha, rfl⟩ := hc <;>
    simp only [Column.get_type] at hty <;>
    simp [fill_row_step, Column.get_type, Column.as_int, Column.as_bool,
      Column.as_float, Column.as_string, ha, Row.set, hty, Value.tag, hset]

theorem fill_row_loop_eq (idx : Nat) : ∀ (cs : List Column) (row : Row)
    (tpre : List Char) (pre post : List (Option Value)),
    (∀ c ∈ cs, idx < c.size) →
    row.types = tpre ++ cs.map Column.get_type →
    row.slots = pre ++ post → tpre.length = pre.length → post.length = cs.length →
    fill_row_loop idx pre.length cs row =
      .ok { row with slots := pre ++ cs.map (fun c => c.cell idx) } := by
  intro cs
  induction cs with
  | nil =>
    intro row tpre pre post _ _ hs _ hp
    have : post = [] := List.length_eq_zero.1 hp
    subst this
    simp [fill_row_loop, ← hs]
  | cons c cs ih =>
    intro row tpre pre post hsz ht hs hl hp
    obtain ⟨v, hv, _⟩ := Column.cell_isSome c idx (hsz c (List.mem_cons_self _ _))
    cases post with
    | nil => simp at hp
    | cons p post =>
      have hstep := fill_row_step_eq idx c row v tpre (cs.map Column.get_type) pre post p
        hv (by simpa using ht) hs hl
      simp only [fill_row_loop, hstep]
      have := ih { row with slots := pre ++ some v :: post } (tpre ++ [c.get_type])
        (pre ++ [some v]) post (fun d hd => hsz d (List.mem_cons_of_mem _ hd))
        (by simpa using ht) (by simp) (by simp [hl]) (by simpa using hp)
      simp only [List.length_append, List.length_singleton] at this
      rw [this]
      simp [hv]

theorem fill_row_eq (df : DataFrame) (h : df.WF) (idx : Nat) (hi : idx < df.length_)
    (row : Row) (ht : row.types = df.schema_.types)
    (hl : row.slots.length = df.columns_.length) :
    df.fill_row idx row = .ok { df.rowAt idx with idx := row.idx } := by
  have h1 : df.schema_.get_types = row.get_types := ht.symm
  simp only [fill_row, h1, if_true]
  have := fill_row_loop_eq idx df.columns_ row [] [] row.slots
    (fun c hc => by rw [h.2 c hc]; exact hi) (by simpa [h.1] using ht) rfl rfl hl
  simp only [List.length_nil, List.nil_append] at this
  rw [this]
  simp [rowAt, ht]

theorem rowAt_spec (df : DataFrame) (h : df.WF) (k : Nat) (hk : k < df.length_) :
    (df.rowAt k).idx = some k ∧ (df.rowAt k).get_types = df.get_schema.get_types ∧
    ∀ (j : Nat) (c : Column), df.columns_[j]? = some c →
      ∃ v, c.cell k = some v ∧ v.tag = c.get_type ∧
        (df.rowAt k).slots[j]? = some (some v) := by
  refine ⟨rfl, rfl, ?_⟩
  intro j c hj
  obtain ⟨v, hv, htag⟩ :=
    Column.cell_isSome c k (by rw [h.2 c (List.getElem?_mem hj)]; exact hk)
  exact ⟨v, hv, htag, by simp [rowAt, hj, hv]⟩

/-! ## The traversal loop -/

theorem rowsFrom_succ (df : DataFrame) (i m : Nat) :
    df.rowsFrom i (m + 1) = df.rowAt i :: df.rowsFrom (i + 1) m := by
  simp [rowsFrom, List.range'_succ]

theorem rowsFrom_length (df : DataFrame) (i m : Nat) : (df.rowsFrom i m).length = m := by
  simp [rowsFrom]

theorem rowsFrom_getElem? (df : DataFrame) (i m k : Nat) (hk : k < m) :
    (df.rowsFrom i m)[k]? = some (df.rowAt (i + k)) := by
  simp [rowsFrom, List.getElem?_range', hk]

theorem rowsFrom_append (df : DataFrame) (i m1 m2 : Nat) :
    df.rowsFrom i m1 ++ df.rowsFrom (i + m1) m2 = df.rowsFrom i (m1 + m2) := by
  simp only [rowsFrom, ← List.map_append]
  congr 1
  have := List.range'_append i m1 m2 1
  simp only [Nat.one_mul] at this
  rw [this, Nat.add_comm]

theorem rowsFrom_idx (df : DataFrame) (i m : Nat) :
    (df.rowsFrom i m).map Row.idx = (List.range' i m).map some := by
  simp [rowsFrom, rowAt, Function.comp_def]

theorem scan_eq {ρ : Type} (df : DataFrame) (h : df.WF) (R : Rower ρ) (stop : Nat)
    (hstop : stop ≤ df.length_) :
    ∀ (fuel i : Nat) (row : Row) (s : ρ), row.types = df.schema_.types →
      row.slots.length = df.columns_.length → stop - i ≤ fuel →
      scan df R stop fuel i row s = present R (df.rowsFrom i (stop - i)) s := by
  intro fuel
  induction fuel with
  | zero =>
    intro i row s _ _ hf
    have h0 : stop - i = 0 := by omega
    simp [scan, h0, rowsFrom, present]
  | succ n ih =>
    intro i row s ht hl hf
    by_cases hi : i < stop
    · have hm : stop - i = (stop - (i + 1)) + 1 := by omega
      have hfill : df.fill_row i (row.set_idx i) = .ok (df.rowAt i) := by
        rw [fill_row_eq df h i (by omega) (row.set_idx i) ht hl]
        rfl
      rw [hm, rowsFrom_succ]
      simp only [scan, hi, if_true, hfill, present]
      cases hacc : R.accept s (df.rowAt i) with
      | error f => rfl
      | ok p =>
        obtain ⟨s1, b⟩ := p
        exact ih (i + 1) (df.rowAt i) s1 rfl (by simp [rowAt]) (by omega)
    · have h0 : stop - i = 0 := by omega
      simp [scan, hi, h0, rowsFrom, present]

theorem map_eq {ρ : Type} (df : DataFrame) (h : df.WF) (R : Rower ρ) (r : ρ) :
    df.map R r = present R (df.rowsFrom 0 df.length_) r := by
  unfold map
  exact scan_eq df h R df.length_ (Nat.le_refl _) _ 0 _ r rfl
    (by simp [Row.ofSchema, Schema.width, h.width]) (Nat.le_refl _)

theorem map_x_one_eq {ρ : Type} (df : DataFrame) (h : df.WF) (R : Rower ρ) (r_ r2_ : ρ) :
    df.map_x R 1 r_ r2_ =
      match present R (df.rowsFrom 0 (df.length_ / 2)) r_ with
      | .ok s => .ok (s, r2_)
      | .abort f s => .abort f (s, r2_) := by
  simp only [map_x, if_true]
  rw [scan_eq df h R (df.length_ / 2) (Nat.div_le_self _ _) _ 0 _ r_ rfl
    (by simp [Row.ofSchema, Schema.width, h.width]) (Nat.le_refl _)]
  rfl

theorem map_x_other_eq {ρ : Type} (df : DataFrame) (h : df.WF) (R : Rower ρ) (x : Int)
    (hx : x ≠ 1) (r_ r2_ : ρ) :
    df.map_x R x r_ r2_ =
      match present R (df.rowsFrom (df.length_ / 2) (df.length_ - df.length_ / 2)) r2_ with
      | .ok s => .ok (r_, s)
      | .abort f s => .abort f (r_, s) := by
  simp only [map_x, hx, if_false]
  rw [scan_eq df h R df.length_ (Nat.le_refl _) _ (df.length_ / 2) _ r2_ rfl
    (by simp [Row.ofSchema, Schema.width, h.width]) (Nat.le_refl _)]

theorem present_recorder (ans : Row → Bool) (rows : List Row) :
    ∀ s : List Row, present (recorder ans) rows s = .ok (s ++ rows) := by
  induction rows with
  | nil => intro s; simp [present]
  | cons r rows ih =>
    intro s
    have := ih (s ++ [r])
    simp only [present]
    show present (recorder ans) rows (s ++ [r]) = _
    rw [this]
    simp

/-- The answers of `accept` play no part in `present`. -/
theorem present_congr {ρ : Type} (R Q : Rower ρ)
    (h : ∀ s r, (R.accept s r).map Prod.fst = (Q.accept s r).map Prod.fst)
    (rows : List Row) : ∀ s : ρ, present R rows s = present Q rows s := by
  induction rows with
  | nil => intro s; rfl
  | cons r rows ih =>
    intro s
    have := h s r
    simp only [present]
    cases hR : R.accept s r <;> cases hQ : Q.accept s r <;>
      simp only [hR, hQ, Except.map] at this <;> try cases this
    · rfl
    · rename_i p q
      obtain ⟨s1, b1⟩ := p
      obtain ⟨s2, b2⟩ := q
      simp only [Except.ok.injEq] at this
      subst this
      exact ih s1

/-! ## C8, C9: order of the traversals -/

/-- C8: on a DataFrame with `nrows() = n` that satisfies the invariants, `map`
calls `accept` exactly `n` times; call `k` receives a row whose index is `k`,
whose types are the schema's and whose slot `j` holds the value of column `j`
at row `k`.  For every Rower `map` is the presentation of these rows in
increasing order, and the booleans returned by `accept` do not influence
it. -/
theorem map_order (df : DataFrame) (hs : df.ShapeInv) (ht : df.TypeInv) :
    ∃ calls : List Row,
      calls.length = df.nrows ∧
      (∀ k, k < df.nrows → ∃ row, calls[k]? = some row ∧ row.idx = some k ∧
        row.get_types = df.get_schema.get_types ∧
        ∀ (j : Nat) (c : Column), df.columns_[j]? = some c →
          ∃ v, c.cell k = some v ∧ row.slots[j]? = some (some v)) ∧
      (∀ ans : Row → Bool, df.map (recorder ans) [] = .ok calls) ∧
      (∀ {ρ : Type} (R : Rower ρ) (r : ρ), df.map R r = present R calls r) ∧
      (∀ {ρ : Type} (R Q : Rower ρ),
        (∀ s r, (R.accept s r).map Prod.fst = (Q.accept s r).map Prod.fst) →
        ∀ r : ρ, df.map R r = df.map Q r) := by
  have h := DataFrame.WF.of_inv hs ht
  refine ⟨df.rowsFrom 0 df.length_, rowsFrom_length _ _ _, ?_, ?_, ?_, ?_⟩
  · intro k hk
    refine ⟨df.rowAt k, ?_, ?_⟩
    · simpa using rowsFrom_getElem? df 0 df.length_ k hk
    · obtain ⟨h1, h2, h3⟩ := rowAt_spec df h k hk
      refine ⟨h1, h2, ?_⟩
      intro j c hj
      obtain ⟨v, hv, _, hslot⟩ := h3 j c hj
      exact ⟨v, hv, hslot⟩
  · intro ans
    rw [map_eq df h, present_recorder]
    rfl
  · intro ρ R r
    exact map_eq df h R r
  · intro ρ R Q hRQ r
    rw [map_eq df h, map_eq df h]
    exact present_congr R Q hRQ _ r

theorem map_order_witness :
    twoRows.ShapeInv ∧ twoRows.TypeInv ∧
    (∃ calls : List Row,
      calls.length = twoRows.nrows ∧
      (∀ k, k < twoRows.nrows → ∃ row, calls[k]? = some row ∧ row.idx = some k ∧
        row.get_types = twoRows.get_schema.get_types ∧
        ∀ (j : Nat) (c : Column), twoRows.columns_[j]? = some c →
          ∃ v, c.cell k = some v ∧ row.slots[j]? = some (some v)) ∧
      (∀ ans : Row → Bool, twoRows.map (recorder ans) [] = .ok calls) ∧
      (∀ {ρ : Type} (R : Rower ρ) (r : ρ), twoRows.map R r = present R calls r) ∧
      (∀ {ρ : Type} (R Q : Rower ρ),
        (∀ s r, (R.accept s r).map Prod.fst = (Q.accept s r).map Prod.fst) →
        ∀ r : ρ, twoRows.map R r = twoRows.map Q r)) ∧
    twoRows.map (recorder (fun _ => false)) [] =
      .ok [⟨['I', 'S'], some 0, [some (.int 7), some (.string (some "a"))]⟩,
        ⟨['I', 'S'], some 1, [some (.int 8), some (.string (some "b"))]⟩] :=
  ⟨(wf_of_reachable reachable_twoRows).shape, (wf_of_reachable reachable_twoRows).types,
    map_order twoRows (wf_of_reachable reachable_twoRows).shape
      (wf_of_reachable reachable_twoRows).types, rfl⟩

/-- C9: on a DataFrame with `nrows() = n` (satisfying the invariants), thread 1
of `pmap` gives the original Rower exactly the rows with index in `[0, n/2)`,
in increasing order, and thread 2 gives the clone exactly the rows with index
in `[n/2, n)`, in increasing order.  The two ranges are disjoint and cover
`[0, n)` exactly once; the first has `n/2` rows, the second `n - n/2`, and the
sizes differ by at most one. -/
theorem pmap_partition (df : DataFrame) (hs : df.ShapeInv) (ht : df.TypeInv) :
    ∃ first second : List Row,
      (∀ {ρ : Type} (R : Rower ρ) (r_ r2_ : ρ), df.map_x R 1 r_ r2_ =
        match present R first r_ with
        | .ok s => .ok (s, r2_)
        | .abort f s => .abort f (s, r2_)) ∧
      (∀ {ρ : Type} (R : Rower ρ) (r_ r2_ : ρ), df.map_x R 2 r_ r2_ =
        match present R second r2_ with
        | .ok s => .ok (r_, s)
        | .abort f s => .abort f (r_, s)) ∧
      (∀ (ans : Row → Bool) (a b : List Row),
        df.map_x (recorder ans) 1 a b = .ok (a ++ first, b) ∧
        df.map_x (recorder ans) 2 a b = .ok (a, b ++ second) ∧
        df.pmap (recorder ans) a = .ok (a ++ first ++ second)) ∧
      first.map Row.idx = (List.range' 0 (df.nrows / 2)).map some ∧
      second.map Row.idx =
        (List.range' (df.nrows / 2) (df.nrows - df.nrows / 2)).map some ∧
      (first ++ second).map Row.idx = (List.range' 0 df.nrows).map some ∧
      ((first ++ second).map Row.idx).Nodup ∧
      (∀ ans : Row → Bool, df.map (recorder ans) [] = .ok (first ++ second)) ∧
      first.length = df.nrows / 2 ∧ second.length = df.nrows - df.nrows / 2 ∧
      first.length ≤ second.length ∧ second.length ≤ first.length + 1 := by
  have h := DataFrame.WF.of_inv hs ht
  have happ : df.rowsFrom 0 (df.length_ / 2) ++
      df.rowsFrom (df.length_ / 2) (df.length_ - df.length_ / 2) =
      df.rowsFrom 0 df.length_ := by
    have := rowsFrom_append df 0 (df.length_ / 2) (df.length_ - df.length_ / 2)
    rw [Nat.zero_add] at this
    rw [this]
    congr 1
    have := Nat.div_le_self df.length_ 2
    omega
  have hx1 : ∀ (ans : Row → Bool) (a b : List Row),
      df.map_x (recorder ans) 1 a b = .ok (a ++ df.rowsFrom 0 (df.length_ / 2), b) := by
    intro ans a b
    rw [map_x_one_eq df h, present_recorder]
  have hx2 : ∀ (ans : Row → Bool) (a b : List Row),
      df.map_x (recorder ans) 2 a b =
        .ok (a, b ++ df.rowsFrom (df.length_ / 2) (df.length_ - df.length_ / 2)) := by
    intro ans a b
    rw [map_x_other_eq df h _ 2 (by decide), present_recorder]
  refine ⟨df.rowsFrom 0 (df.length_ / 2),
    df.rowsFrom (df.length_ / 2) (df.length_ - df.length_ / 2), ?_, ?_, ?_,
    rowsFrom_idx _ _ _, rowsFrom_idx _ _ _, ?_, ?_, ?_, rowsFrom_length _ _ _,
    rowsFrom_length _ _ _, ?_, ?_⟩
  · intro ρ R r_ r2_
    exact map_x_one_eq df h R r_ r2_
  · intro ρ R r_ r2_
    exact map_x_other_eq df h R 2 (by decide) r_ r2_
  · intro ans a b
    refine ⟨hx1 ans a b, hx2 ans a b, ?_⟩
    simp only [pmap, hx1, hx2]
    simp [recorder]
  · rw [happ]; exact rowsFrom_idx _ _ _
  · rw [happ, rowsFrom_idx]
    exact (List.nodup_range' 0 df.length_).map (fun a b hab => Option.some.inj hab)
  · intro ans
    rw [happ, map_eq df h, present_recorder]
    rfl
  · rw [rowsFrom_length, rowsFrom_length]
    show df.length_ / 2 ≤ df.length_ - df.length_ / 2
    omega
  · rw [rowsFrom_length, rowsFrom_length]
    show df.length_ - df.length_ / 2 ≤ df.length_ / 2 + 1
    omega

theorem pmap_partition_witness :
    fiveInts.ShapeInv ∧ fiveInts.TypeInv ∧
    (∃ first second : List Row,
      (∀ {ρ : Type} (R : Rower ρ) (r_ r2_ : ρ), fiveInts.map_x R 1 r_ r2_ =
        match present R first r_ with
        | .ok s => .ok (s, r2_)
        | .abort f s => .abort f (s, r2_)) ∧
      (∀ {ρ : Type} (R : Rower ρ) (r_ r2_ : ρ), fiveInts.map_x R 2 r_ r2_ =
        match present R second r2_ with
        | .ok s => .ok (r_, s)
        | .abort f s => .abort f (r_, s)) ∧
      (∀ (ans : Row → Bool) (a b : List Row),
        fiveInts.map_x (recorder ans) 1 a b = .ok (a ++ first, b) ∧
        fiveInts.map_x (recorder ans) 2 a b = .ok (a, b ++ second) ∧
        fiveInts.pmap (recorder ans) a = .ok (a ++ first ++ second)) ∧
      first.map Row.idx = (List.range' 0 (fiveInts.nrows / 2)).map some ∧
      second.map Row.idx =
        (List.range' (fiveInts.nrows / 2) (fiveInts.nrows - fiveInts.nrows / 2)).map some ∧
      (first ++ second).map Row.idx = (List.range' 0 fiveInts.nrows).map some ∧
      ((first ++ second).map Row.idx).Nodup ∧
      (∀ ans : Row → Bool, fiveInts.map (recorder ans) [] = .ok (first ++ second)) ∧
      first.length = fiveInts.nrows / 2 ∧
      second.length = fiveInts.nrows - fiveInts.nrows / 2 ∧
      first.length ≤ second.length ∧ second.length ≤ first.length + 1) ∧
    fiveInts.map_x (recorder (fun _ => true)) 1 [] [] =
      .ok ([⟨['I'], some 0, [some (.int 3)]⟩, ⟨['I'], some 1, [some (.int 1)]⟩], []) ∧
    fiveInts.map_x (recorder (fun _ => true)) 2 [] [] =
      .ok ([], [⟨['I'], some 2, [some (.int 4)]⟩, ⟨['I'], some 3, [some (.int 1)]⟩,
        ⟨['I'], some 4, [some (.int 5)]⟩]) :=
  have hr : Reachable fiveInts :=
    Reachable.add_column DataFrame.empty _ (.int [3, 1, 4, 1, 5]) Reachable.empty rfl
  ⟨(wf_of_reachable hr).shape, (wf_of_reachable hr).types,
    pmap_partition fiveInts (wf_of_reachable hr).shape (wf_of_reachable hr).types,
    rfl, rfl⟩

/-! ## C10: `map` and `pmap` on a summing rower -/

theorem sumCompatible_id : SumCompatible id := by
  simp [SumCompatible]

theorem sumCompatible_wrap32 : SumCompatible wrap32 := by
  refine ⟨by decide, ?_, ?_⟩ <;> intro a b <;> simp only [wrap32] <;> omega

theorem drop_take_succ (xs : List Int) (i m : Nat) (hi : i < xs.length) :
    ((xs.drop i).take (m + 1)).sum = xs[i] + ((xs.drop (i + 1)).take m).sum := by
  rw [List.drop_eq_getElem_cons hi, List.take_succ_cons, List.sum_cons]

theorem rowAt_get_int (df : DataFrame) (c : Nat) (xs : List Int)
    (hc : df.columns_[c]? = some (.int xs)) (k : Nat) (hk : k < xs.length) :
    (df.rowAt k).get_int c = .ok xs[k] := by
  simp [Row.get_int, rowAt, hc, Column.cell, hk]

theorem present_sumRower (df : DataFrame) (w : Int → Int) (hw : SumCompatible w)
    (c : Nat) (xs : List Int) (hc : df.columns_[c]? = some (.int xs)) :
    ∀ (m i : Nat) (a : Int), i + m ≤ xs.length →
      present (sumRower w c) (df.rowsFrom i m) (w a) =
        .ok (w (a + ((xs.drop i).take m).sum)) := by
  intro m
  induction m with
  | zero => intro i a _; simp [rowsFrom, present]
  | succ m ih =>
    intro i a him
    have hi : i < xs.length := by omega
    rw [rowsFrom_succ, drop_take_succ xs i m hi]
    simp only [present, sumRower, rowAt_get_int df c xs hc i hi]
    rw [hw.2.1 a xs[i]]
    have := ih (i + 1) (a + xs[i]) (by omega)
    simp only [sumRower] at this
    rw [this, Int.add_assoc]

theorem map_sumRower (df : DataFrame) (h : df.WF) (w : Int → Int) (hw : SumCompatible w)
    (c : Nat) (xs : List Int) (hc : df.columns_[c]? = some (.int xs)) :
    df.map (sumRower w c) 0 = .ok (w xs.sum) ∧
      df.pmap (sumRower w c) 0 = .ok (w xs.sum) := by
  have hlen : xs.length = df.length_ := h.2 _ (List.getElem?_mem hc)
  have hhalf : df.length_ / 2 ≤ df.length_ := Nat.div_le_self _ _
  have key := present_sumRower df w hw c xs hc
  constructor
  · rw [map_eq df h]
    have := key df.length_ 0 0 (by omega)
    rw [hw.1] at this
    rw [this, ← hlen]
    simp
  · have h1 := key (df.length_ / 2) 0 0 (by omega)
    have h2 := key (df.length_ - df.length_ / 2) (df.length_ / 2) 0 (by omega)
    have ht : (xs.drop (df.length_ / 2)).take (df.length_ - df.length_ / 2) =
        xs.drop (df.length_ / 2) := by
      apply List.take_of_length_le
      simp [hlen]
    rw [hw.1, List.drop_zero, Int.zero_add] at h1
    rw [hw.1, Int.zero_add, ht] at h2
    have e1 : df.map_x (sumRower w c) 1 0 ((sumRower w c).clone 0) =
        .ok (w (xs.take (df.length_ / 2)).sum, 0) := by
      rw [map_x_one_eq df h, h1]
      rfl
    have e2 : df.map_x (sumRower w c) 2 (w (xs.take (df.length_ / 2)).sum) 0 =
        .ok (w (xs.take (df.length_ / 2)).sum, w (xs.drop (df.length_ / 2)).sum) := by
      rw [map_x_other_eq df h _ 2 (by decide), h2]
    simp only [pmap, e1, e2]
    show Outcome.ok (w (w (xs.take (df.length_ / 2)).sum +
      w (xs.drop (df.length_ / 2)).sum)) = _
    rw [hw.2.1, hw.2.2, List.sum_take_add_sum_drop]

/-- C10: on a DataFrame with any number of rows (zero and one included) that
satisfies the invariants and has an integer column `c`, the rower that sums
column `c`, starts at zero and merges by adding the clone's sum ends `pmap`
(original on the first half, clone on the second half, then merge) with the
sum it ends `map` with: the sum of the column, with exact integer additions
and with 32-bit wrap-around additions alike. -/
theorem map_pmap_sum (df : DataFrame) (hs : df.ShapeInv) (ht : df.TypeInv) (c : Nat)
    (xs : List Int) (hc : df.columns_[c]? = some (.int xs)) :
    (df.map (sumRower id c) 0 = .ok xs.sum ∧ df.pmap (sumRower id c) 0 = .ok xs.sum) ∧
    (df.map (sumRower wrap32 c) 0 = .ok (wrap32 xs.sum) ∧
      df.pmap (sumRower wrap32 c) 0 = .ok (wrap32 xs.sum)) :=
  ⟨map_sumRower df (DataFrame.WF.of_inv hs ht) id sumCompatible_id c xs hc,
    map_sumRower df (DataFrame.WF.of_inv hs ht) wrap32 sumCompatible_wrap32 c xs hc⟩

theorem map_pmap_sum_witness :
    fiveInts.ShapeInv ∧ fiveInts.TypeInv ∧
    fiveInts.columns_[0]? = some (.int [3, 1, 4, 1, 5]) ∧
    ((fiveInts.map (sumRower id 0) 0 = .ok ([3, 1, 4, 1, 5] : List Int).sum ∧
        fiveInts.pmap (sumRower id 0) 0 = .ok ([3, 1, 4, 1, 5] : List Int).sum) ∧
      (fiveInts.map (sumRower wrap32 0) 0 = .ok (wrap32 ([3, 1, 4, 1, 5] : List Int).sum) ∧
        fiveInts.pmap (sumRower wrap32 0) 0 =
          .ok (wrap32 ([3, 1, 4, 1, 5] : List Int).sum))) ∧
    (DataFrame.mk [.int []] ⟨['I']⟩ 0).map (sumRower id 0) 0 = .ok 0 ∧
    (DataFrame.mk [.int []] ⟨['I']⟩ 0).pmap (sumRower id 0) 0 = .ok 0 ∧
    (DataFrame.mk [.int [9]] ⟨['I']⟩ 1).map (sumRower id 0) 0 = .ok 9 ∧
    (DataFrame.mk [.int [9]] ⟨['I']⟩ 1).pmap (sumRower id 0) 0 = .ok 9 ∧
    (DataFrame.mk [.int [2147483647, 1, -1]] ⟨['I']⟩ 3).map (sumRower wrap32 0) 0 =
      .ok 2147483647 ∧
    (DataFrame.mk [.int [2147483647, 1, -1]] ⟨['I']⟩ 3).pmap (sumRower wrap32 0) 0 =
      .ok 2147483647 :=
  have hr : Reachable fiveInts :=
    Reachable.add_column DataFrame.empty _ (.int [3, 1, 4, 1, 5]) Reachable.empty rfl
  ⟨(wf_of_reachable hr).shape, (wf_of_reachable hr).types, rfl,
    map_pmap_sum fiveInts (wf_of_reachable hr).shape (wf_of_reachable hr).types 0
      [3, 1, 4, 1, 5] rfl,
    rfl, rfl, rfl, rfl, rfl, rfl⟩

/-! ## C7: `filter` -/

/-- C7 (failing input): `paddedText` is obtained from the empty constructor by
two `add_column` calls and satisfies the shape and type invariants; its text
column holds the absent-text marker at row 1.  `filter` with a rower accepting
every row does not return the two-row copy: row 0 is added, then `add_row`
pushes the integer of row 1 and dereferences the null text pointer
(`row.get_string(j)->clone()`), which stops the program with the new frame
half-written. -/
theorem filter_missing_text :
    Reachable paddedText ∧ paddedText.ShapeInv ∧ paddedText.TypeInv ∧
    paddedText.filter acceptAll () =
      .abort .undefined (⟨[.int [3, 1], .string [some "a"]], ⟨['I', 'S']⟩, 1⟩, ()) ∧
    (paddedText.filter acceptAll ()).isOk = false ∧
    paddedText.map (recorder (fun _ => true)) [] =
      .ok [⟨['I', 'S'], some 0, [some (.int 3), some (.string (some "a"))]⟩,
        ⟨['I', 'S'], some 1, [some (.int 1), some (.string none)]⟩] ∧
    fiveInts.filter (acceptOdd 0) () = .ok (⟨[.int [3, 1, 1, 5]], ⟨['I']⟩, 4⟩, ()) :=
  have hr : Reachable paddedText :=
    Reachable.add_column _ _ (.string [some "a"])
      (Reachable.add_column DataFrame.empty _ (.int [3, 1]) Reachable.empty rfl) rfl
  ⟨hr, (wf_of_reachable hr).shape, (wf_of_reachable hr).types, rfl, rfl, rfl, rfl⟩

/-! ## `filter` away from missing text -/

theorem Outcome.map_map {σ τ υ : Type} (g : σ → τ) (g1 : τ → υ) (o : Outcome σ) :
    (o.map g).map g1 = o.map (fun s => g1 (g s)) := by
  cases o <;> rfl

theorem add_row_step_pick (row : Row) (j k : Nat) (c : Column) (ks : List Nat)
    (hslot : row.slots[j]? = some (c.cell k)) (hk : k < c.size)
    (hm : c.cell k ≠ some (.string none)) :
    add_row_step row j (c.pick ks) = .ok (c.pick (ks ++ [k])) := by
  cases c with
  | int xs =>
    simp only [Column.size] at hk
    simp [add_row_step, Column.pick, Column.get_type, Row.get_int, hslot, Column.cell, hk,
      Column.push_back, List.filterMap_append]
  | bool xs =>
    simp only [Column.size] at hk
    simp [add_row_step, Column.pick, Column.get_type, Row.get_bool, hslot, Column.cell, hk,
      Column.push_back, List.filterMap_append]
  | float xs =>
    simp only [Column.size] at hk
    simp [add_row_step, Column.pick, Column.get_type, Row.get_float, hslot, Column.cell, hk,
      Column.push_back, List.filterMap_append]
  | string xs =>
    simp only [Column.size] at hk
    simp only [Column.cell, List.getElem?_eq_getElem hk, Option.map_some', ne_eq,
      Option.some.injEq, Value.string.injEq] at hm
    cases hx : xs[k] with
    | none => exact absurd hx hm
    | some t =>
      simp [add_row_step, Column.pick, Column.get_type, Row.get_string, hslot, Column.cell,
        hk, hx, Column.push_back, List.filterMap_append]

theorem add_row_loop_pick (row : Row) (k : Nat) (ks : List Nat) :
    ∀ (cs : List Column) (pre : List (Option Value)),
      row.slots = pre ++ cs.map (fun c => c.cell k) →
      (∀ c ∈ cs, k < c.size ∧ c.cell k ≠ some (.string none)) →
      add_row_loop row pre.length (cs.map (fun c => c.pick ks)) =
        .ok (cs.map (fun c => c.pick (ks ++ [k]))) := by
  intro cs
  induction cs with
  | nil => intro pre _ _; rfl
  | cons c cs ih =>
    intro pre hs hc
    have hslot : row.slots[pre.length]? = some (c.cell k) := by
      rw [hs]; exact getElem?_length_append _ _ _
    have h1 := hc c (List.mem_cons_self _ _)
    have hrest := ih (pre ++ [c.cell k]) (by simpa using hs)
      (fun d hd => hc d (List.mem_cons_of_mem _ hd))
    simp only [List.length_append, List.length_singleton] at hrest
    simp only [List.map_cons, add_row_loop, add_row_step_pick row _ k c ks hslot h1.1 h1.2,
      hrest]

theorem add_row_pickRows (df : DataFrame) (h : df.WF) (hm : df.NoMissingText) (k : Nat)
    (hk : k < df.length_) (ks : List Nat) :
    (df.pickRows ks).add_row (df.filterRow k) = .ok (df.pickRows (ks ++ [k])) := by
  have hl := add_row_loop_pick (df.filterRow k) k ks df.columns_ [] rfl
    (fun c hc => ⟨by rw [h.2 c hc]; exact hk, hm c hc k⟩)
  simp only [List.length_nil] at hl
  simp [add_row, pickRows, filterRow, rowAt, Schema.get_types, Row.get_types] at hl ⊢
  simp [hl]

theorem ofSchema_eq_pickRows (df : DataFrame) (h : df.WF) :
    DataFrame.ofSchema df.schema_ = df.pickRows [] := by
  have : ∀ cs : List Column,
      ofSchemaColumns (cs.map Column.get_type) = cs.map (fun c => c.pick []) := by
    intro cs
    induction cs with
    | nil => rfl
    | cons c cs ih => cases c <;> simp [ofSchemaColumns, Column.get_type, Column.pick, ih]
  simp [DataFrame.ofSchema, pickRows, Schema.get_types, ← h.1, this]

theorem filter_loop_eq {ρ : Type} (df : DataFrame) (h : df.WF) (hm : df.NoMissingText)
    (R : Rower ρ) :
    ∀ (fuel i : Nat) (ks0 : List Nat) (s : ρ), df.length_ - i ≤ fuel →
      filter_loop df R fuel i (df.pickRows ks0) s =
        (select R df (List.range' i (df.length_ - i)) s).map
          (fun p => (df.pickRows (ks0 ++ p.1), p.2)) := by
  intro fuel
  induction fuel with
  | zero =>
    intro i ks0 s hf
    have h0 : df.length_ - i = 0 := by omega
    simp [filter_loop, h0, select, Outcome.map]
  | succ n ih =>
    intro i ks0 s hf
    by_cases hi : i < df.length_
    · have hmm : df.length_ - i = (df.length_ - (i + 1)) + 1 := by omega
      have hfill : df.fill_row i (Row.ofSchema df.schema_) = .ok (df.filterRow i) := by
        rw [fill_row_eq df h i hi _ rfl (by simp [Row.ofSchema, Schema.width, h.width])]
        rfl
      rw [hmm, List.range'_succ]
      simp only [filter_loop, hi, if_true, hfill, select]
      cases hacc : R.accept s (df.filterRow i) with
      | error f => simp [Outcome.map]
      | ok p =>
        obtain ⟨s1, b⟩ := p
        cases b with
        | true =>
          simp only [if_true, add_row_pickRows df h hm i hi ks0]
          rw [ih (i + 1) (ks0 ++ [i]) s1 (by omega), Outcome.map_map]
          simp
        | false =>
          simp only [Bool.false_eq_true, if_false]
          rw [ih (i + 1) ks0 s1 (by omega), Outcome.map_map]
    · have h0 : df.length_ - i = 0 := by omega
      simp [filter_loop, hi, h0, select, Outcome.map]

/-- On a well-formed frame without missing text, `filter` returns the frame of
the accepted rows, in their original order, under the same schema. -/
theorem filter_eq {ρ : Type} (df : DataFrame) (h : df.WF) (hm : df.NoMissingText)
    (R : Rower ρ) (s : ρ) :
    df.filter R s =
      (select R df (List.range' 0 df.length_) s).map (fun p => (df.pickRows p.1, p.2)) := by
  unfold filter
  rw [ofSchema_eq_pickRows df h, filter_loop_eq df h hm R _ 0 [] s (Nat.le_refl _)]
  simp

/-! ## C11: serialization of a DataFrame -/

theorem intercalate_go_append (hdr s : String) : ∀ (as : List String) (a : String),
    String.intercalate.go (hdr ++ a) s as = hdr ++ String.intercalate.go a s as := by
  intro as
  induction as with
  | nil => intro a; rfl
  | cons b as ih =>
    intro a
    simp only [String.intercalate.go]
    rw [← ih, String.append_assoc hdr, String.append_assoc hdr]

theorem serialize_loop_eq (ser : Column → String) (width : Nat) :
    ∀ (cs : List Column) (c : Column) (i : Nat) (buff : String),
      i + (cs.length + 1) = width →
      serialize_loop ser width i (c :: cs) buff =
        String.intercalate.go (buff ++ ser c) "," (cs.map ser) := by
  intro cs
  induction cs with
  | nil =>
    intro c i buff hw
    have : ¬ i < width - 1 := by simp at hw; omega
    simp [serialize_loop, this, String.intercalate.go]
  | cons d cs ih =>
    intro c i buff hw
    have hlt : i < width - 1 := by simp at hw; omega
    rw [serialize_loop]
    simp only [hlt, if_true]
    rw [ih d (i + 1) _ (by simp at hw ⊢; omega)]
    simp only [List.map_cons, String.intercalate.go]

/-- C11: for every DataFrame with `k ≥ 0` columns, `serialize()` is exactly
`{type: dataframe, columns: [`, then the columns' serialized forms separated
by single commas (none for `k = 0`, `k - 1` for `k ≥ 1`, never a trailing one),
then `]}`.  A one-column integer DataFrame holding `[42]`, whose column
serializes as `[{42}]`, yields `{type: dataframe, columns: [[{42}]]}`. -/
theorem serialize_format (ser : Column → String) (df : DataFrame) :
    df.serialize ser = "\x7btype: dataframe, columns: [" ++
      String.intercalate "," (df.columns_.map ser) ++ "]\x7d" ∧
    (∀ (s : Schema) (n : Nat),
      DataFrame.serialize ser ⟨[], s, n⟩ = "\x7btype: dataframe, columns: []\x7d") ∧
    (∀ (c : Column) (s : Schema) (n : Nat),
      DataFrame.serialize ser ⟨[c], s, n⟩ =
        "\x7btype: dataframe, columns: [" ++ ser c ++ "]\x7d") ∧
    (∀ (c d : Column) (s : Schema) (n : Nat),
      DataFrame.serialize ser ⟨[c, d], s, n⟩ =
        "\x7btype: dataframe, columns: [" ++ ser c ++ "," ++ ser d ++ "]\x7d") ∧
    Column.serialize (fun _ => "") (.int [42]) = "[\x7b42\x7d]" ∧
    DataFrame.serialize (Column.serialize (fun _ => "")) ⟨[.int [42]], ⟨['I']⟩, 1⟩ =
      "\x7btype: dataframe, columns: [[\x7b42\x7d]]\x7d" := by
  have main : ∀ df : DataFrame, df.serialize ser = "\x7btype: dataframe, columns: [" ++
      String.intercalate "," (df.columns_.map ser) ++ "]\x7d" := by
    intro df
    unfold serialize
    cases hcs : df.columns_ with
    | nil => simp [serialize_loop, String.intercalate]
    | cons c cs =>
      simp only [ncols, hcs, String.empty_append]
      rw [serialize_loop_eq ser _ cs c 0 _ (by simp), intercalate_go_append]
      simp [String.intercalate]
  refine ⟨main df, ?_, ?_, ?_, rfl, rfl⟩
  · intro s n
    rw [main]
    rfl
  · intro c s n
    rw [main]
    simp [String.intercalate, String.intercalate.go]
  · intro c d s n
    rw [main]
    simp [String.intercalate, String.intercalate.go, String.append_assoc]

/-! ## C12, C13: equality and copy construction -/

theorem vector_equals_elementwise {α : Type} (eq : α → α → Bool) : ∀ (as bs : List α),
    Vector.equals eq as bs = true ↔
      as.length = bs.length ∧
        ∀ (i : Nat) (a b : α), as[i]? = some a → bs[i]? = some b → eq a b = true := by
  intro as
  induction as with
  | nil =>
    intro bs
    cases bs with
    | nil => simp [Vector.equals]
    | cons b bs => simp [Vector.equals]
  | cons a as ih =>
    intro bs
    cases bs with
    | nil => simp [Vector.equals]
    | cons b bs =>
      simp only [Vector.equals, Bool.and_eq_true, ih bs, List.length_cons, Nat.add_right_cancel_iff]
      constructor
      · rintro ⟨h0, hl, hr⟩
        refine ⟨hl, ?_⟩
        intro i x y hx hy
        cases i with
        | zero =>
          simp only [List.getElem?_cons_zero, Option.some.injEq] at hx hy
          subst hx; subst hy; exact h0
        | succ i =>
          simp only [List.getElem?_cons_succ] at hx hy
          exact hr i x y hx hy
      · rintro ⟨hl, hr⟩
        exact ⟨hr 0 a b (by simp) (by simp), hl,
          fun i x y hx hy => hr (i + 1) x y (by simpa using hx)
          (by simpa using hy)⟩

/-- C12: `a.equals(b)` is true exactly when the column counts agree, the row
counts agree and column `i` of `a` equals column `i` of `b` for every `i`;
so frames with different column counts or different row counts are never
equal, and `equals` is false on an object that is not a DataFrame. -/
theorem equals_iff (colEq : Column → Column → Bool) (a b : DataFrame) :
    (a.equals colEq (.dataframe b) = true ↔
      a.ncols = b.ncols ∧ a.nrows = b.nrows ∧
        ∀ (i : Nat) (ca cb : Column), a.columns_[i]? = some ca → b.columns_[i]? = some cb →
          colEq ca cb = true) ∧
    (a.ncols ≠ b.ncols → a.equals colEq (.dataframe b) = false) ∧
    (a.nrows ≠ b.nrows → a.equals colEq (.dataframe b) = false) ∧
    a.equals colEq .notDataFrame = false := by
  have key : a.equals colEq (.dataframe b) = true ↔
      a.ncols = b.ncols ∧ a.nrows = b.nrows ∧
        ∀ (i : Nat) (ca cb : Column), a.columns_[i]? = some ca → b.columns_[i]? = some cb →
          colEq ca cb = true := by
    simp only [equals, Object.as_dataframe, get_columns_]
    by_cases h1 : a.ncols = b.ncols
    · by_cases h2 : a.nrows = b.nrows
      · simp only [h1, h2, ne_eq, not_true_eq_false, if_false, true_and]
        rw [vector_equals_elementwise]
        constructor
        · exact fun h => h.2
        · exact fun h => ⟨h1, h⟩
      · simp [h1, h2]
    · simp [h1]
  refine ⟨key, ?_, ?_, rfl⟩
  · intro h
    cases he : a.equals colEq (.dataframe b) with
    | false => rfl
    | true => exact absurd (key.1 he).1 h
  · intro h
    cases he : a.equals colEq (.dataframe b) with
    | false => rfl
    | true => exact absurd (key.1 he).2.1 h

theorem equals_iff_witness :
    fiveInts.ncols ≠ twoRows.ncols ∧ fiveInts.nrows ≠ twoRows.nrows ∧
    fiveInts.equals Column.equals (.dataframe twoRows) = false ∧
    twoRows.equals Column.equals (.dataframe twoRows) = true ∧
    twoRows.equals Column.equals
      (.dataframe ⟨[.int [7, 8], .string [some "a", some "c"]], ⟨['I', 'S']⟩, 2⟩) = false ∧
    twoRows.equals Column.equals .notDataFrame = false :=
  ⟨by decide, by decide,
    (equals_iff Column.equals fiveInts twoRows).2.1 (by decide),
    rfl, rfl, rfl⟩

/-- C13 (failing input): the copy constructor keeps the rows.  The frame it
builds has the schema of `df`, but also the columns of `df` with all their
cells and `nrows() = df.nrows()`; for the five-row table `[3,1,4,1,5]` the copy
has five rows and a column of length five, not zero. -/
theorem copy_keeps_rows :
    (∀ df : DataFrame, df.copy.get_schema = df.get_schema ∧ df.copy.nrows = df.nrows ∧
      df.copy.columns_ = df.columns_) ∧
    fiveInts.copy.nrows = 5 ∧
    fiveInts.copy.columns_.map Column.size = [5] ∧
    fiveInts.copy.get_int 0 4 = .ok 5 :=
  ⟨fun _ => ⟨rfl, rfl, rfl⟩, rfl, rfl, rfl⟩

/-! ## C14: `add_row` then `fill_row` -/

theorem add_row_step_push (row : Row) (j : Nat) (c : Column) (v : Value)
    (hslot : row.slots[j]? = some (some v)) (htag : v.tag = c.get_type)
    (hnn : v ≠ .string none) : add_row_step row j c = .ok (c.push v) := by
  cases c <;> cases v <;> simp only [Value.tag, Column.get_type] at htag <;>
    first
    | exact absurd htag (by decide)
    | skip
  · simp [add_row_step, Column.get_type, Row.get_int, hslot, Column.push_back, Column.push]
  · simp [add_row_step, Column.get_type, Row.get_bool, hslot, Column.push_back, Column.push]
  · simp [add_row_step, Column.get_type, Row.get_float, hslot, Column.push_back, Column.push]
  · rename_i xs s
    cases s with
    | none => exact absurd rfl hnn
    | some t =>
      simp [add_row_step, Column.get_type, Row.get_string, hslot, Column.push_back,
        Column.push]

theorem add_row_loop_push (row : Row) : ∀ (cs : List Column) (vs : List Value)
    (pre : List (Option Value)),
    row.slots = pre ++ vs.map some → vs.map Value.tag = cs.map Column.get_type →
    (∀ v ∈ vs, v ≠ .string none) →
    add_row_loop row pre.length cs = .ok (List.zipWith Column.push cs vs) := by
  intro cs
  induction cs with
  | nil => intro vs pre _ _ _; rfl
  | cons c cs ih =>
    intro vs pre hs htag hnn
    cases vs with
    | nil => simp at htag
    | cons v vs =>
      simp only [List.map_cons, List.cons.injEq] at htag
      have hslot : row.slots[pre.length]? = some (some v) := by
        rw [hs]; exact getElem?_length_append _ _ _
      have hrest := ih vs (pre ++ [some v]) (by simpa using hs) htag.2
        (fun w hw => hnn w (List.mem_cons_of_mem _ hw))
      simp only [List.length_append, List.length_singleton] at hrest
      simp only [add_row_loop,
        add_row_step_push row _ c v hslot htag.1 (hnn v (List.mem_cons_self _ _)), hrest,
        List.zipWith_cons_cons]

theorem Column.cell_push_lt (c : Column) (v : Value) (i : Nat) (hi : i < c.size) :
    (c.push v).cell i = c.cell i := by
  cases c <;> cases v <;> simp only [Column.size] at hi <;>
    simp [Column.push, Column.cell, List.getElem?_append_left, hi]

theorem Column.cell_push_size (c : Column) (v : Value) (htag : v.tag = c.get_type) :
    (c.push v).cell c.size = some v := by
  cases c <;> cases v <;> simp only [Value.tag, Column.get_type] at htag <;>
    first
    | exact absurd htag (by decide)
    | simp [Column.push, Column.cell, Column.size]

theorem zipWith_push_cells (n : Nat) : ∀ (cs : List Column) (vs : List Value),
    vs.map Value.tag = cs.map Column.get_type → (∀ c ∈ cs, c.size = n) →
    (List.zipWith Column.push cs vs).map (fun c => c.cell n) = vs.map some := by
  intro cs
  induction cs with
  | nil =>
    intro vs h _
    cases vs with
    | nil => rfl
    | cons v vs => simp at h
  | cons c cs ih =>
    intro vs h hn
    cases vs with
    | nil => simp at h
    | cons v vs =>
      simp only [List.map_cons, List.cons.injEq] at h
      have hc : c.size = n := hn c (List.mem_cons_self _ _)
      have := Column.cell_push_size c v h.1
      rw [hc] at this
      simp [this, ih vs h.2 (fun d hd => hn d (List.mem_cons_of_mem _ hd))]

/-- C14: on a DataFrame with `nrows() = n` that satisfies the invariants,
`add_row` of a row whose type sequence is the schema's and whose slots are
filled (every slot holds a value of its column's type, text values non-null)
returns with `nrows() = n + 1`; `fill_row(n, r0)` on a schema-matching row
`r0` then returns a row whose slots are, value for value, those of the added
row; and every cell at a row index below `n` is unchanged. -/
theorem add_row_fill_row (df : DataFrame) (hs : df.ShapeInv) (ht : df.TypeInv)
    (r : Row) (vs : List Value)
    (hty : r.get_types = df.get_schema.get_types)
    (hslots : r.slots = vs.map some)
    (htag : vs.map Value.tag = r.get_types)
    (hnn : ∀ v ∈ vs, v ≠ .string none)
    (r0 : Row) (h0 : r0.get_types = df.get_schema.get_types)
    (hl0 : r0.slots.length = df.get_schema.width) :
    ∃ df1, df.add_row r = .ok df1 ∧ df1.nrows = df.nrows + 1 ∧
      (∃ r1, df1.fill_row df.nrows r0 = .ok r1 ∧ r1.slots = r.slots) ∧
      (∀ (j i : Nat) (c : Column), df.columns_[j]? = some c → i < df.nrows →
        ∃ c1, df1.columns_[j]? = some c1 ∧ c1.cell i = c.cell i) ∧
      df1.ncols = df.ncols ∧ df1.get_schema = df.get_schema := by
  have h := DataFrame.WF.of_inv hs ht
  have htag1 : vs.map Value.tag = df.columns_.map Column.get_type := by
    rw [htag, hty, h.1]; rfl
  have hloop := add_row_loop_push r df.columns_ vs [] (by simpa using hslots) htag1 hnn
  simp only [List.length_nil] at hloop
  have hadd : df.add_row r =
      .ok ⟨List.zipWith Column.push df.columns_ vs, df.schema_, df.length_ + 1⟩ := by
    have h1 : df.schema_.get_types = r.get_types := hty.symm
    simp only [add_row, h1, if_true, hloop]
  have hwf := wf_add_row df _ r h hadd
  have hlen : vs.length = df.columns_.length := by
    simpa using congrArg List.length htag1
  refine ⟨_, hadd, rfl, ?_, ?_, ?_, rfl⟩
  · refine ⟨_, fill_row_eq _ hwf df.length_ (Nat.lt_succ_self _) r0 h0 ?_, ?_⟩
    · have hw : df.schema_.types.length = df.columns_.length := h.width
      simp only [List.length_zipWith, hlen, Nat.min_self]
      rw [hl0]
      exact hw
    · simp only [rowAt]
      rw [zipWith_push_cells df.length_ df.columns_ vs htag1 h.2, hslots]
  · intro j i c hj hi
    have hjlt : j < vs.length := by
      rw [hlen]
      exact (List.getElem?_eq_some.1 hj).1
    refine ⟨c.push vs[j], ?_, ?_⟩
    · simp [List.getElem?_zipWith, hj, List.getElem?_eq_getElem hjlt]
    · apply Column.cell_push_lt
      rw [h.2 c (List.getElem?_mem hj)]
      exact hi
  · simp [ncols, hlen]

theorem add_row_fill_row_witness :
    twoRows.ShapeInv ∧ twoRows.TypeInv ∧
    rowC.get_types = twoRows.get_schema.get_types ∧
    rowC.slots = [Value.int 9, Value.string (some "c")].map some ∧
    [Value.int 9, Value.string (some "c")].map Value.tag = rowC.get_types ∧
    (∀ v ∈ [Value.int 9, Value.string (some "c")], v ≠ .string none) ∧
    (Row.ofSchema twoRows.get_schema).get_types = twoRows.get_schema.get_types ∧
    (Row.ofSchema twoRows.get_schema).slots.length = twoRows.get_schema.width ∧
    (∃ df1, twoRows.add_row rowC = .ok df1 ∧ df1.nrows = twoRows.nrows + 1 ∧
      (∃ r1, df1.fill_row twoRows.nrows (Row.ofSchema twoRows.get_schema) = .ok r1 ∧
        r1.slots = rowC.slots) ∧
      (∀ (j i : Nat) (c : Column), twoRows.columns_[j]? = some c → i < twoRows.nrows →
        ∃ c1, df1.columns_[j]? = some c1 ∧ c1.cell i = c.cell i) ∧
      df1.ncols = twoRows.ncols ∧ df1.get_schema = twoRows.get_schema) ∧
    twoRows.add_row rowC =
      .ok ⟨[.int [7, 8, 9], .string [some "a", some "b", some "c"]], ⟨['I', 'S']⟩, 3⟩ ∧
    (DataFrame.mk [.int [7, 8, 9], .string [some "a", some "b", some "c"]] ⟨['I', 'S']⟩ 3).fill_row
        2 (Row.ofSchema ⟨['I', 'S']⟩) =
      .ok ⟨['I', 'S'], none, [some (.int 9), some (.string (some "c"))]⟩ :=
  ⟨(wf_of_reachable reachable_twoRows).shape, (wf_of_reachable reachable_twoRows).types,
    rfl, rfl, rfl, by simp, rfl, rfl,
    add_row_fill_row twoRows (wf_of_reachable reachable_twoRows).shape
      (wf_of_reachable reachable_twoRows).types rowC [.int 9, .string (some "c")]
      rfl rfl rfl (by simp) (Row.ofSchema twoRows.get_schema) rfl rfl,
    rfl, rfl⟩

/-! ## C15: typed access is checked -/

/-- C15: for a column index `c` in range (column `col`) and a row index `r` in
range for it (`r < nrows()` under the shape invariant), `get_int`, `get_bool`,
`get_float`, `get_string` at `(c, r)` return the cell exactly when the column's
tag is `I`, `B`, `F`, `S` respectively and stop with the type-mismatch error
otherwise; `set(c, r, v)` with a value of another type than the column's stops
with the same error and leaves the DataFrame as it was. -/
theorem typed_access (df : DataFrame) (c r : Nat) (col : Column)
    (hc : df.columns_[c]? = some col) (hr : r < col.size) :
    (col.get_type = 'I' → ∃ v, df.get_int c r = .ok v ∧ col.cell r = some (.int v)) ∧
    (col.get_type ≠ 'I' →
      df.get_int c r = .error (.exit "Column index corresponds to the wrong type.")) ∧
    (col.get_type = 'B' → ∃ v, df.get_bool c r = .ok v ∧ col.cell r = some (.bool v)) ∧
    (col.get_type ≠ 'B' →
      df.get_bool c r = .error (.exit "Column index corresponds to the wrong type.")) ∧
    (col.get_type = 'F' → ∃ v, df.get_float c r = .ok v ∧ col.cell r = some (.float v)) ∧
    (col.get_type ≠ 'F' →
      df.get_float c r = .error (.exit "Column index corresponds to the wrong type.")) ∧
    (col.get_type = 'S' → ∃ v, df.get_string c r = .ok v ∧ col.cell r = some (.string v)) ∧
    (col.get_type ≠ 'S' →
      df.get_string c r = .error (.exit "Column index corresponds to the wrong type.")) ∧
    (∀ v : Value, v.tag ≠ col.get_type →
      df.set c r v = .abort (.exit "Column index corresponds to the wrong type.") df) := by
  refine ⟨?_, ?_, ?_, ?_, ?_, ?_, ?_, ?_, ?_⟩
  · intro h
    cases col <;> simp only [Column.get_type] at h <;> first | exact absurd h (by decide) | skip
    simp only [Column.size] at hr
    simp [get_int, hc, Column.as_int, Column.cell, hr]
  · intro h
    cases col <;> simp only [Column.get_type] at h <;>
      first
      | exact absurd rfl h
      | simp [get_int, hc, Column.as_int]
  · intro h
    cases col <;> simp only [Column.get_type] at h <;> first | exact absurd h (by decide) | skip
    simp only [Column.size] at hr
    simp [get_bool, hc, Column.as_bool, Column.cell, hr]
  · intro h
    cases col <;> simp only [Column.get_type] at h <;>
      first
      | exact absurd rfl h
      | simp [get_bool, hc, Column.as_bool]
  · intro h
    cases col <;> simp only [Column.get_type] at h <;> first | exact absurd h (by decide) | skip
    simp only [Column.size] at hr
    simp [get_float, hc, Column.as_float, Column.cell, hr]
  · intro h
    cases col <;> simp only [Column.get_type] at h <;>
      first
      | exact absurd rfl h
      | simp [get_float, hc, Column.as_float]
  · intro h
    cases col <;> simp only [Column.get_type] at h <;> first | exact absurd h (by decide) | skip
    simp only [Column.size] at hr
    simp [get_string, hc, Column.as_string, Column.cell, hr]
  · intro h
    cases col <;> simp only [Column.get_type] at h <;>
      first
      | exact absurd rfl h
      | simp [get_string, hc, Column.as_string]
  · intro v hv
    have : ¬ col.get_type = v.tag := fun e => hv e.symm
    simp [DataFrame.set, hc, this]

theorem typed_access_witness :
    twoRows.columns_[1]? = some (.string [some "a", some "b"]) ∧
    1 < (Column.string [some "a", some "b"]).size ∧
    twoRows.get_string 1 1 = .ok (some "b") ∧
    twoRows.get_int 1 1 = .error (.exit "Column index corresponds to the wrong type.") ∧
    twoRows.get_bool 1 1 = .error (.exit "Column index corresponds to the wrong type.") ∧
    twoRows.get_float 1 1 = .error (.exit "Column index corresponds to the wrong type.") ∧
    twoRows.get_int 0 1 = .ok 8 ∧
    twoRows.set 1 1 (.int 5) =
      .abort (.exit "Column index corresponds to the wrong type.") twoRows :=
  have h := typed_access twoRows 1 1 (.string [some "a", some "b"]) rfl (by decide)
  ⟨rfl, by decide, rfl, h.2.1 (by decide), h.2.2.2.1 (by decide), h.2.2.2.2.2.1 (by decide),
    rfl, h.2.2.2.2.2.2.2.2 (.int 5) (by decide)⟩

/-! ## C16: the rows `filter` presents -/

theorem select_recorder (ans : Row → Bool) (df : DataFrame) : ∀ (ks : List Nat) (s : List Row),
    select (recorder ans) df ks s =
      .ok (ks.filter (fun k => ans (df.filterRow k)), s ++ ks.map df.filterRow) := by
  intro ks
  induction ks with
  | nil => intro s; simp [select]
  | cons k ks ih =>
    intro s
    have hacc : (recorder ans).accept s (df.filterRow k) =
        .ok (s ++ [df.filterRow k], ans (df.filterRow k)) := rfl
    simp only [select, hacc, ih, Outcome.map, List.filter_cons, List.map_cons]
    cases ans (df.filterRow k) <;> simp

/-- On a well-formed frame without missing text, the rows `filter` hands to
`accept` are the rows of the frame in increasing order, each with the cells
of its row but without a row index. -/
theorem filter_presents (df : DataFrame) (h : df.WF) (hm : df.NoMissingText)
    (ans : Row → Bool) :
    (df.filter (recorder ans) []).map Prod.snd =
      .ok ((List.range' 0 df.length_).map df.filterRow) := by
  rw [filter_eq df h hm, select_recorder]
  rfl

/-- C16 (failing input): on the two-row table `twoRows`, `map` hands `accept` the
rows with row index 0 and 1, while `filter` hands it the same cells in rows
whose index was never set (`filter` builds a fresh row per iteration and does
not call `set_idx`), so a rower reading the row index does not observe
`0, 1` under `filter`. -/
theorem filter_rows_unindexed :
    Reachable twoRows ∧
    twoRows.map (recorder (fun _ => true)) [] =
      .ok [⟨['I', 'S'], some 0, [some (.int 7), some (.string (some "a"))]⟩,
        ⟨['I', 'S'], some 1, [some (.int 8), some (.string (some "b"))]⟩] ∧
    twoRows.filter (recorder (fun _ => true)) [] =
      .ok (twoRows, [⟨['I', 'S'], none, [some (.int 7), some (.string (some "a"))]⟩,
        ⟨['I', 'S'], none, [some (.int 8), some (.string (some "b"))]⟩]) ∧
    (twoRows.map (recorder (fun _ => true)) []).map (fun rows => rows.map Row.idx) =
      .ok [some 0, some 1] ∧
    (twoRows.filter (recorder (fun _ => true)) []).map (fun p => p.2.map Row.idx) =
      .ok [none, none] :=
  ⟨reachable_twoRows, rfl, rfl, rfl, rfl⟩

/-! ## C17: the buffer of `serialize_float` -/

theorem serialize_float_loop_eq (txt : List Char) : ∀ (fuel len : Nat), 1 ≤ len →
    (txt.length < len ∨ (txt.length - len) / 10 + 1 ≤ fuel) →
    serialize_float_loop txt fuel len (txt.take (len - 1)) (txt.length : Int) =
      some (.ok (if txt.length < len then len
        else len + 10 * ((txt.length - len) / 10 + 1), txt)) := by
  intro fuel
  induction fuel with
  | zero =>
    intro len hlen hf
    have hlt : txt.length < len := by omega
    have h1 : ¬ ((txt.length : Int) ≥ (len : Int)) := by omega
    have h2 : txt.take (len - 1) = txt := List.take_of_length_le (by omega)
    simp only [serialize_float_loop, h1, if_false, hlt, if_true, h2]
  | succ n ih =>
    intro len hlen hf
    by_cases hlt : txt.length < len
    · have h1 : ¬ ((txt.length : Int) ≥ (len : Int)) := by omega
      have h2 : txt.take (len - 1) = txt := List.take_of_length_le (by omega)
      simp only [serialize_float_loop, h1, if_false, hlt, if_true, h2]
    · have h1 : (txt.length : Int) ≥ (len : Int) := by omega
      have h3 : (txt.length : Int) ≥ 0 := by omega
      simp only [serialize_float_loop, h1, if_true, snprintf, h3, hlt, if_false]
      rw [ih (len + 10) (by omega) (by omega)]
      by_cases hlt2 : txt.length < len + 10
      · have : (txt.length - len) / 10 = 0 := by omega
        simp [hlt2, this]
      · have : (txt.length - len) / 10 = (txt.length - (len + 10)) / 10 + 1 := by omega
        simp only [hlt2, if_false, this]
        congr 3
        omega

/-- C17: whatever the length `L` of the rendering of the float, the retry loop
of `serialize_float` (buffer size 10, plus 10 per retry) ends after `L / 10`
retries, once the model is given that many iterations, with a buffer size
`10 + 10 * (L / 10)` strictly greater than `L` and the whole rendering in the
buffer; the result is `{`, the complete rendering, `}`. -/
theorem serialize_float_complete (render : CFloat → List Char) (f : CFloat) (fuel : Nat)
    (hfuel : (render f).length / 10 ≤ fuel) :
    serialize_float_loop (render f) fuel 10 (snprintf (render f) 10).1
        (snprintf (render f) 10).2 =
      some (.ok (10 + 10 * ((render f).length / 10), render f)) ∧
    (render f).length < 10 + 10 * ((render f).length / 10) ∧
    serialize_float render fuel f = some (.ok ("\x7b" ++ String.mk (render f) ++ "\x7d")) := by
  have hcond : (render f).length < 10 ∨ ((render f).length - 10) / 10 + 1 ≤ fuel := by omega
  have hloop := serialize_float_loop_eq (render f) fuel 10 (by decide) hcond
  have hlen : (if (render f).length < 10 then 10
      else 10 + 10 * (((render f).length - 10) / 10 + 1)) =
      10 + 10 * ((render f).length / 10) := by
    split <;> omega
  rw [hlen] at hloop
  have h3 : ((render f).length : Int) ≥ 0 := by omega
  refine ⟨hloop, by omega, ?_⟩
  simp only [serialize_float, snprintf, h3, if_true]
  rw [hloop]
  rfl

theorem serialize_float_complete_witness :
    "1234567.5000000".toList.length / 10 ≤ 1 ∧
    (serialize_float_loop "1234567.5000000".toList 1 10
        (snprintf "1234567.5000000".toList 10).1 (snprintf "1234567.5000000".toList 10).2 =
      some (.ok (10 + 10 * ("1234567.5000000".toList.length / 10), "1234567.5000000".toList)) ∧
    "1234567.5000000".toList.length < 10 + 10 * ("1234567.5000000".toList.length / 10) ∧
    serialize_float (fun _ => "1234567.5000000".toList) 1 ⟨0⟩ =
      some (.ok ("\x7b" ++ String.mk "1234567.5000000".toList ++ "\x7d"))) ∧
    serialize_float (fun _ => "2.5000000".toList) 0 ⟨0⟩ = some (.ok "\x7b2.5000000\x7d") ∧
    serialize_float (fun _ => "1234567.5000000".toList) 1 ⟨0⟩ =
      some (.ok "\x7b1234567.5000000\x7d") :=
  ⟨by decide, serialize_float_complete (fun _ => "1234567.5000000".toList) ⟨0⟩ 1 (by decide),
    rfl, rfl⟩

/-! ## C18: `set` then `get` -/

theorem Column.set_spec (col : Column) (r : Nat) (v : Value) (hv : v.tag = col.get_type)
    (hr : r < col.size) :
    ∃ col1, col.set r v = .ok col1 ∧ col1.get_type = col.get_type ∧ col1.size = col.size ∧
      col1.cell r = some v ∧ ∀ r1, r1 ≠ r → col1.cell r1 = col.cell r1 := by
  cases col with
  | int xs =>
    cases v <;> simp only [Value.tag, Column.get_type] at hv <;>
      first
      | exact absurd hv (by decide)
      | skip
    rename_i x
    simp only [Column.size] at hr
    refine ⟨.int (xs.set r x), by simp only [Column.set, hr, if_true], rfl,
      by simp [Column.size], by simp [Column.cell, hr], ?_⟩
    intro r1 h1
    simp [Column.cell, List.getElem?_set_ne (Ne.symm h1)]
  | bool xs =>
    cases v <;> simp only [Value.tag, Column.get_type] at hv <;>
      first
      | exact absurd hv (by decide)
      | skip
    rename_i x
    simp only [Column.size] at hr
    refine ⟨.bool (xs.set r x), by simp only [Column.set, hr, if_true], rfl,
      by simp [Column.size], by simp [Column.cell, hr], ?_⟩
    intro r1 h1
    simp [Column.cell, List.getElem?_set_ne (Ne.symm h1)]
  | float xs =>
    cases v <;> simp only [Value.tag, Column.get_type] at hv <;>
      first
      | exact absurd hv (by decide)
      | skip
    rename_i x
    simp only [Column.size] at hr
    refine ⟨.float (xs.set r x), by simp only [Column.set, hr, if_true], rfl,
      by simp [Column.size], by simp [Column.cell, hr], ?_⟩
    intro r1 h1
    simp [Column.cell, List.getElem?_set_ne (Ne.symm h1)]
  | string xs =>
    cases v <;> simp only [Value.tag, Column.get_type] at hv <;>
      first
      | exact absurd hv (by decide)
      | skip
    rename_i x
    simp only [Column.size] at hr
    refine ⟨.string (xs.set r x), by simp only [Column.set, hr, if_true], rfl,
      by simp [Column.size], by simp [Column.cell, hr], ?_⟩
    intro r1 h1
    simp [Column.cell, List.getElem?_set_ne (Ne.symm h1)]

theorem get_of_cell (df : DataFrame) (c r : Nat) (col : Column)
    (hc : df.columns_[c]? = some col) :
    (∀ x, col.cell r = some (.int x) → df.get_int c r = .ok x) ∧
    (∀ x, col.cell r = some (.bool x) → df.get_bool c r = .ok x) ∧
    (∀ x, col.cell r = some (.float x) → df.get_float c r = .ok x) ∧
    (∀ x, col.cell r = some (.string x) → df.get_string c r = .ok x) := by
  refine ⟨?_, ?_, ?_, ?_⟩ <;> intro x hx <;> cases col <;>
    simp only [Column.cell, Option.map_eq_some', Value.int.injEq, Value.bool.injEq,
      Value.float.injEq, Value.string.injEq, exists_eq_right, and_false, exists_false,
      reduceCtorEq] at hx <;>
    simp [get_int, get_bool, get_float, get_string, hc, Column.as_int, Column.as_bool,
      Column.as_float, Column.as_string, hx]

theorem get_congr (df df1 : DataFrame) (c r : Nat)
    (h : (df1.columns_[c]?).map (fun k => (k.get_type, k.cell r)) =
      (df.columns_[c]?).map (fun k => (k.get_type, k.cell r))) :
    df1.get_int c r = df.get_int c r ∧ df1.get_bool c r = df.get_bool c r ∧
      df1.get_float c r = df.get_float c r ∧ df1.get_string c r = df.get_string c r := by
  cases h1 : df1.columns_[c]? with
  | none =>
    cases h2 : df.columns_[c]? with
    | none => simp [get_int, get_bool, get_float, get_string, h1, h2]
    | some b => simp [h1, h2] at h
  | some a =>
    cases h2 : df.columns_[c]? with
    | none => simp [h1, h2] at h
    | some b =>
      simp only [h1, h2, Option.map_some', Option.some.injEq, Prod.mk.injEq] at h
      obtain ⟨hty, hcell⟩ := h
      cases a <;> cases b <;> simp only [Column.get_type] at hty <;>
        first
        | exact absurd hty (by decide)
        | (simp only [Column.cell] at hcell
           rename_i xs ys
           have hxy : xs[r]? = ys[r]? := by
             cases hx : xs[r]? <;> cases hy : ys[r]? <;> simp [hx, hy] at hcell ⊢
             exact hcell
           simp [get_int, get_bool, get_float, get_string, h1, h2, Column.as_int,
             Column.as_bool, Column.as_float, Column.as_string, hxy])

/-- C18: on a DataFrame satisfying the invariants, for a column index `c` and a
row index `r` in range and a value `v` of column `c`'s type, `set(c, r, v)`
returns; afterwards the typed getter at `(c, r)` returns `v`, the four getters
read every other cell `(c1, r1) ≠ (c, r)` as before, and `nrows()`, `ncols()`
and the schema are unchanged. -/
theorem set_get (df : DataFrame) (hs : df.ShapeInv) (ht : df.TypeInv) (c r : Nat)
    (col : Column) (hc : df.columns_[c]? = some col) (hr : r < df.nrows) (v : Value)
    (hv : v.tag = col.get_type) :
    ∃ df1, df.set c r v = .ok df1 ∧
      (∀ x, v = .int x → df1.get_int c r = .ok x) ∧
      (∀ x, v = .bool x → df1.get_bool c r = .ok x) ∧
      (∀ x, v = .float x → df1.get_float c r = .ok x) ∧
      (∀ x, v = .string x → df1.get_string c r = .ok x) ∧
      (∀ c1 r1 : Nat, (c1, r1) ≠ (c, r) →
        df1.get_int c1 r1 = df.get_int c1 r1 ∧ df1.get_bool c1 r1 = df.get_bool c1 r1 ∧
        df1.get_float c1 r1 = df.get_float c1 r1 ∧
        df1.get_string c1 r1 = df.get_string c1 r1) ∧
      df1.nrows = df.nrows ∧ df1.ncols = df.ncols ∧ df1.get_schema = df.get_schema ∧
      df1.ShapeInv ∧ df1.TypeInv := by
  have hsz : col.size = df.nrows := hs.1 col (List.getElem?_mem hc)
  have hclt : c < df.columns_.length := (List.getElem?_eq_some.1 hc).1
  obtain ⟨col1, hset, hty1, hsz1, hcell, hother⟩ :=
    Column.set_spec col r v hv (by rw [hsz]; exact hr)
  have hdf : df.set c r v = .ok { df with columns_ := df.columns_.set c col1 } := by
    simp [DataFrame.set, hc, hv, hset]
  have hc1 : ({ df with columns_ := df.columns_.set c col1 } : DataFrame).columns_[c]? =
      some col1 := by
    simp [List.getElem?_set, hclt]
  have hget := get_of_cell _ c r col1 hc1
  refine ⟨_, hdf, ?_, ?_, ?_, ?_, ?_, rfl, by simp [ncols], rfl, ?_, ?_⟩
  · intro x hx; exact hget.1 x (by rw [hcell, hx])
  · intro x hx; exact hget.2.1 x (by rw [hcell, hx])
  · intro x hx; exact hget.2.2.1 x (by rw [hcell, hx])
  · intro x hx; exact hget.2.2.2 x (by rw [hcell, hx])
  · intro c1 r1 hne
    apply get_congr
    by_cases hcc : c1 = c
    · subst hcc
      have hr1 : r1 ≠ r := fun e => hne (by rw [e])
      rw [hc1, hc]
      simp [hty1, hother r1 hr1]
    · simp [List.getElem?_set_ne (Ne.symm hcc)]
  · refine ⟨?_, by simpa [ncols, get_schema] using hs.2⟩
    intro d hd
    rcases List.mem_or_eq_of_mem_set hd with h1 | h1
    · exact hs.1 d h1
    · rw [h1, hsz1]; exact hsz
  · intro i hi
    by_cases hic : i = c
    · subst hic
      have := ht i hclt
      rw [hc] at this
      rw [hc1]
      simpa [hty1] using this
    · have := ht i (by simpa [ncols] using hi)
      simpa [List.getElem?_set_ne (Ne.symm hic)] using this

theorem set_get_witness :
    twoRows.ShapeInv ∧ twoRows.TypeInv ∧
    twoRows.columns_[1]? = some (.string [some "a", some "b"]) ∧ 0 < twoRows.nrows ∧
    (Value.string (some "z")).tag = (Column.string [some "a", some "b"]).get_type ∧
    (∃ df1, twoRows.set 1 0 (.string (some "z")) = .ok df1 ∧
      (∀ x, Value.string (some "z") = .int x → df1.get_int 1 0 = .ok x) ∧
      (∀ x, Value.string (some "z") = .bool x → df1.get_bool 1 0 = .ok x) ∧
      (∀ x, Value.string (some "z") = .float x → df1.get_float 1 0 = .ok x) ∧
      (∀ x, Value.string (some "z") = .string x → df1.get_string 1 0 = .ok x) ∧
      (∀ c1 r1 : Nat, (c1, r1) ≠ (1, 0) →
        df1.get_int c1 r1 = twoRows.get_int c1 r1 ∧
        df1.get_bool c1 r1 = twoRows.get_bool c1 r1 ∧
        df1.get_float c1 r1 = twoRows.get_float c1 r1 ∧
        df1.get_string c1 r1 = twoRows.get_string c1 r1) ∧
      df1.nrows = twoRows.nrows ∧ df1.ncols = twoRows.ncols ∧
      df1.get_schema = twoRows.get_schema ∧ df1.ShapeInv ∧ df1.TypeInv) ∧
    twoRows.set 1 0 (.string (some "z")) =
      .ok ⟨[.int [7, 8], .string [some "z", some "b"]], ⟨['I', 'S']⟩, 2⟩ ∧
    (twoRows.set 1 0 (.string (some "z"))).state.get_string 1 0 = .ok (some "z") ∧
    (twoRows.set 1 0 (.string (some "z"))).state.get_string 1 1 = .ok (some "b") ∧
    (twoRows.set 1 0 (.string (some "z"))).state.get_int 0 0 = .ok 7 :=
  ⟨(wf_of_reachable reachable_twoRows).shape, (wf_of_reachable reachable_twoRows).types,
    rfl, by decide, rfl,
    set_get twoRows (wf_of_reachable reachable_twoRows).shape
      (wf_of_reachable reachable_twoRows).types 1 0 (.string [some "a", some "b"]) rfl
      (by decide) (.string (some "z")) rfl,
    rfl, rfl, rfl, rfl⟩

/-! ## C19: `filter` with a constant predicate -/

theorem add_row_step_noMissing {row : Row} {j : Nat} {c c1 : Column}
    (h : add_row_step row j c = .ok c1) (hc : ∀ k, c.cell k ≠ some (.string none)) :
    ∀ k, c1.cell k ≠ some (.string none) := by
  cases c with
  | int xs =>
    simp only [add_row_step, Column.get_type, Char.reduceEq, if_true, if_false] at h
    split at h <;> simp [Column.push_back] at h
    subst h
    intro k
    simp [Column.cell]
  | bool xs =>
    simp only [add_row_step, Column.get_type, Char.reduceEq, if_true, if_false] at h
    split at h <;> simp [Column.push_back] at h
    subst h
    intro k
    simp [Column.cell]
  | float xs =>
    simp only [add_row_step, Column.get_type, Char.reduceEq, if_true, if_false] at h
    split at h <;> simp [Column.push_back] at h
    subst h
    intro k
    simp [Column.cell]
  | string xs =>
    simp only [add_row_step, Column.get_type, Char.reduceEq, if_true, if_false] at h
    split at h <;> simp [Column.push_back] at h
    subst h
    rename_i t _
    intro k hk
    simp only [Column.cell, Option.map_eq_some', Value.string.injEq, exists_eq_right] at hk hc
    rcases Nat.lt_or_ge k xs.length with hlt | hge
    · rw [List.getElem?_append_left hlt] at hk
      exact hc k (by simp [hk])
    · rw [List.getElem?_append_right hge] at hk
      cases hi : k - xs.length with
      | zero => simp [hi] at hk
      | succ m => simp [hi] at hk

theorem add_row_loop_noMissing {row : Row} : ∀ {cs cs1 : List Column} {j : Nat},
    add_row_loop row j cs = .ok cs1 →
    (∀ c ∈ cs, ∀ k, c.cell k ≠ some (.string none)) →
    ∀ c ∈ cs1, ∀ k, c.cell k ≠ some (.string none) := by
  intro cs
  induction cs with
  | nil =>
    intro cs1 j h _
    simp [add_row_loop] at h
    subst h
    simp
  | cons c cs ih =>
    intro cs1 j h hc
    simp only [add_row_loop] at h
    split at h
    · simp at h
    · rename_i c1 hstep
      split at h
      · rename_i cs2 hrest
        injection h with h
        subst h
        intro d hd
        rcases List.mem_cons.1 hd with hd | hd
        · subst hd
          exact add_row_step_noMissing hstep (hc c (List.mem_cons_self _ _))
        · exact ih hrest (fun e he => hc e (List.mem_cons_of_mem _ he)) d hd
      · simp at h

theorem built_wf {df : DataFrame} (h : BuiltByRows df) : df.WF ∧ df.NoMissingText := by
  induction h with
  | ofSchema schema hv =>
    refine ⟨wf_ofSchema schema hv, ?_⟩
    intro c hc k
    have := (ofSchemaColumns_types schema.get_types hv).2 c hc
    rw [Column.cell_eq_none c k (by omega)]
    simp
  | add_row df df1 row _ hr ih =>
    refine ⟨wf_add_row df df1 row ih.1 hr, ?_⟩
    unfold add_row at hr
    split at hr
    · split at hr
      · rename_i cols1 hl
        injection hr with hr
        subst hr
        exact add_row_loop_noMissing hl ih.2
      · simp at hr
    · simp at hr

theorem select_always {ρ : Type} (R : Rower ρ) (b : Bool) (hR : R.Always b) (df : DataFrame) :
    ∀ (ks : List Nat) (s : ρ), ∃ s1,
      select R df ks s = .ok (if b then ks else [], s1) := by
  intro ks
  induction ks with
  | nil => intro s; exact ⟨s, by cases b <;> rfl⟩
  | cons k ks ih =>
    intro s
    obtain ⟨s1, h1⟩ := hR s (df.filterRow k)
    obtain ⟨s2, h2⟩ := ih s1
    refine ⟨s2, ?_⟩
    simp only [select, h1, h2, Outcome.map]
    cases b <;> simp

theorem filterMap_getElem?_range' {α : Type} : ∀ (xs pre : List α),
    (List.range' pre.length xs.length).filterMap (fun k => (pre ++ xs)[k]?) = xs := by
  intro xs
  induction xs with
  | nil => intro pre; rfl
  | cons x xs ih =>
    intro pre
    have := ih (pre ++ [x])
    simp only [List.length_append, List.length_singleton, List.append_assoc,
      List.singleton_append] at this
    simp only [List.length_cons, List.range'_succ, List.filterMap_cons,
      getElem?_length_append, this]

theorem Column.pick_all (c : Column) : c.pick (List.range' 0 c.size) = c := by
  cases c <;> simp only [Column.pick, Column.size] <;> congr 1 <;>
    exact filterMap_getElem?_range' _ []

theorem pickRows_all (df : DataFrame) (h : df.WF) :
    df.pickRows (List.range' 0 df.length_) = df := by
  have : df.columns_.map (fun c => c.pick (List.range' 0 df.length_)) = df.columns_ := by
    conv => rhs; rw [← List.map_id df.columns_]
    apply List.map_congr_left
    intro c hc
    rw [← h.2 c hc]
    exact Column.pick_all c
  simp [pickRows, this]

theorem vector_equals_refl (colEq : Column → Column → Bool) (hrefl : ∀ c, colEq c c = true) :
    ∀ cs : List Column, Vector.equals colEq cs cs = true := by
  intro cs
  induction cs with
  | nil => rfl
  | cons c cs ih => simp [Vector.equals, hrefl, ih]

/-- C19: for a DataFrame built from the schema constructor (valid tags) by
`add_row` calls, `filter` with a rower that accepts every row returns a frame
`d` with `df.equals(d)` true (column equality being reflexive), and `filter`
with a rower that rejects every row returns a frame with `nrows() = 0`, the
same `ncols()`, the same schema and only empty columns. -/
theorem filter_constant (colEq : Column → Column → Bool) (hrefl : ∀ c, colEq c c = true)
    (df : DataFrame) (hb : BuiltByRows df) {ρ : Type} (R : Rower ρ) (s : ρ) :
    (R.Always true → ∃ d s1, df.filter R s = .ok (d, s1) ∧
      df.equals colEq (.dataframe d) = true) ∧
    (R.Always false → ∃ d s1, df.filter R s = .ok (d, s1) ∧ d.nrows = 0 ∧
      d.ncols = df.ncols ∧ d.get_schema = df.get_schema ∧
      ∀ c ∈ d.columns_, c.size = 0) := by
  obtain ⟨hwf, hm⟩ := built_wf hb
  constructor
  · intro hR
    obtain ⟨s1, hsel⟩ := select_always R true hR df (List.range' 0 df.length_) s
    refine ⟨df, s1, ?_, ?_⟩
    · rw [filter_eq df hwf hm, hsel]
      simp [Outcome.map, pickRows_all df hwf]
    · simp [equals, Object.as_dataframe, get_columns_, vector_equals_refl colEq hrefl]
  · intro hR
    obtain ⟨s1, hsel⟩ := select_always R false hR df (List.range' 0 df.length_) s
    refine ⟨df.pickRows [], s1, ?_, rfl, by simp [pickRows, ncols], rfl, ?_⟩
    · rw [filter_eq df hwf hm, hsel]
      simp [Outcome.map]
    · intro c hc
      simp only [pickRows, List.mem_map] at hc
      obtain ⟨c0, _, rfl⟩ := hc
      cases c0 <;> simp [Column.pick, Column.size]

theorem filter_constant_witness :
    (∀ c, Column.equals c c = true) ∧ BuiltByRows twoRows ∧
    acceptAll.Always true ∧ rejectAll.Always false ∧
    (∃ d s1, twoRows.filter acceptAll () = .ok (d, s1) ∧
      twoRows.equals Column.equals (.dataframe d) = true) ∧
    (∃ d s1, twoRows.filter rejectAll () = .ok (d, s1) ∧ d.nrows = 0 ∧
      d.ncols = twoRows.ncols ∧ d.get_schema = twoRows.get_schema ∧
      ∀ c ∈ d.columns_, c.size = 0) ∧
    twoRows.filter acceptAll () = .ok (twoRows, ()) ∧
    twoRows.filter rejectAll () = .ok (⟨[.int [], .string []], ⟨['I', 'S']⟩, 0⟩, ()) :=
  have hrefl : ∀ c, Column.equals c c = true := fun c => by simp [Column.equals]
  have hb : BuiltByRows twoRows :=
    BuiltByRows.add_row _ _ rowB
      (BuiltByRows.add_row _ _ rowA
        (BuiltByRows.ofSchema ⟨['I', 'S']⟩ (by simp [Schema.get_types, validTag])) rfl) rfl
  have hT : acceptAll.Always true := fun _ _ => ⟨(), rfl⟩
  have hF : rejectAll.Always false := fun _ _ => ⟨(), rfl⟩
  ⟨hrefl, hb, hT, hF,
    (filter_constant Column.equals hrefl twoRows hb acceptAll ()).1 hT,
    (filter_constant Column.equals hrefl twoRows hb rejectAll ()).2 hF, rfl, rfl⟩

end Eau2
